import Mathlib

/-!
Verification development for the tri-bureau credit-report parser
(`process_credit_report.py`).  The Python source is shallowly embedded:
pure helpers become Lean functions on `String`/`List Char`, the
payment-history loop becomes a fold over an explicit state, machine
integers are `Nat`, fallible code returns `Except`/`Option`.  Regex
scanning is embedded by hand-written scanners that follow Python's
leftmost, non-overlapping `findall` semantics for the concrete patterns
appearing in the source.
-/

namespace CreditReport

/-- Python whitespace (`str.split()`, `str.strip()`, regex class `\s`):
space, tab, newline, carriage return, vertical tab, form feed. -/
def wsChar (c : Char) : Bool :=
  c == ' ' || c == Char.ofNat 9 || c == Char.ofNat 10 || c == Char.ofNat 13 ||
  c == Char.ofNat 11 || c == Char.ofNat 12

/-- Left-strip whitespace on a character list. -/
def lTrimL (cs : List Char) : List Char := cs.dropWhile wsChar

/-- Right-strip whitespace on a character list. -/
def rTrimL (cs : List Char) : List Char := (cs.reverse.dropWhile wsChar).reverse

/-- Python `str.strip()`. -/
def trimL (cs : List Char) : List Char := rTrimL (lTrimL cs)

/-- Python `str.strip()` on `String`. -/
def trimS (s : String) : String := ⟨trimL s.data⟩

/-- Python `str.lower()` (ASCII, which is all the source compares). -/
def lowerS (s : String) : String := ⟨s.data.map Char.toLower⟩

/-- Python `str.upper()`. -/
def upperS (s : String) : String := ⟨s.data.map Char.toUpper⟩

/-- Does `pat` occur at the head of `cs`? -/
def startsL : List Char → List Char → Bool
  | [], _ => true
  | _ :: _, [] => false
  | p :: ps, c :: cs => p == c && startsL ps cs

/-- Substring containment on character lists (Python `in` on `str`). -/
def hasSubL (pat : List Char) : List Char → Bool
  | [] => startsL pat []
  | c :: cs => startsL pat (c :: cs) || hasSubL pat cs

/-- Substring containment on `String` (Python `pat in s`). -/
def hasSub (pat s : String) : Bool := hasSubL pat.data s.data

/-- Helper for `splitChar`: accumulates the current (reversed) chunk. -/
def splitCharAux (sep : Char) : List Char → List Char → List (List Char)
  | [], acc => [acc.reverse]
  | c :: cs, acc =>
    if c == sep then acc.reverse :: splitCharAux sep cs []
    else splitCharAux sep cs (c :: acc)

/-- Split a character list on a separator (Python `s.split(sep)`). -/
def splitChar (sep : Char) (cs : List Char) : List (List Char) :=
  splitCharAux sep cs []

/-- Helper for `pySplit`: whitespace tokenisation, accumulating the
current (reversed) token. -/
def wordsAux : List Char → List Char → List String
  | [], acc => if acc.isEmpty then [] else [⟨acc.reverse⟩]
  | c :: cs, acc =>
    if wsChar c then
      if acc.isEmpty then wordsAux cs [] else (⟨acc.reverse⟩ : String) :: wordsAux cs []
    else wordsAux cs (c :: acc)

/-- Python `str.split()` with no argument: split on whitespace runs,
dropping empty tokens. -/
def pySplit (s : String) : List String := wordsAux s.data []

/-- ASCII digit test (regex `\d` on the source's ASCII data). -/
def isDigitC (c : Char) : Bool := 48 ≤ c.toNat && c.toNat ≤ 57

/-- ASCII letter test (regex `[A-Za-z]`). -/
def isAlphaC (c : Char) : Bool :=
  (65 ≤ c.toNat && c.toNat ≤ 90) || (97 ≤ c.toNat && c.toNat ≤ 122)

/-- Numeric value of a decimal digit string (`int`, also what
`strptime` computes for a matched digit field). -/
def digitsValL (cs : List Char) : Nat := cs.foldl (fun a c => a * 10 + (c.toNat - 48)) 0

/-- All characters are decimal digits. -/
def allDigits (cs : List Char) : Bool := cs.all isDigitC

/-- The ASCII character of a decimal digit. -/
def dchar (d : Nat) : Char := Char.ofNat (48 + d)

/-- Fuel-driven decimal rendering of a `Nat` (fuel keeps the recursion
structural so that the kernel can evaluate it). -/
def natCharsF : Nat → Nat → List Char
  | 0, _ => []
  | f + 1, n => if n < 10 then [dchar n] else natCharsF f (n / 10) ++ [dchar (n % 10)]

/-- Decimal digits of `n` (Python `str(n)` for a nonnegative int). -/
def natChars (n : Nat) : List Char := natCharsF (n + 1) n

/-- Python `str(n)` for a nonnegative int. -/
def natStr (n : Nat) : String := ⟨natChars n⟩

/-- `strftime` field `%m` / `%d`: zero-padded to two digits. -/
def pad2 (n : Nat) : String := if n < 10 then ⟨'0' :: natChars n⟩ else natStr n

/-- `strftime` field `%Y`: zero-padded to four digits. -/
def pad4 (n : Nat) : String :=
  if n < 10 then ⟨'0' :: '0' :: '0' :: natChars n⟩
  else if n < 100 then ⟨'0' :: '0' :: natChars n⟩
  else if n < 1000 then ⟨'0' :: natChars n⟩
  else natStr n

/-- `date_obj.strftime("%m/%d/%Y")`: the canonical date rendering of
`clean_value`. -/
def fmtDate (m d y : Nat) : String :=
  ⟨(pad2 m).data ++ '/' :: (pad2 d).data ++ '/' :: (pad4 y).data⟩

/-- Gregorian leap year, as the `datetime` module computes it. -/
def isLeap (y : Nat) : Bool := (y % 4 == 0 && y % 100 != 0) || y % 400 == 0

/-- Days in a month, as validated by `datetime.strptime`. -/
def daysInMonth (m y : Nat) : Nat :=
  if m = 2 then (if isLeap y then 29 else 28)
  else if m = 4 || m = 6 || m = 9 || m = 11 then 30 else 31

/-- Is `m/d/y` a date `datetime.strptime` accepts (`datetime` years run
1..9999)? -/
def validDate (m d y : Nat) : Bool :=
  1 ≤ m && m ≤ 12 && 1 ≤ d && d ≤ daysInMonth m y && 1 ≤ y && y ≤ 9999

/-- `strptime` then `strftime("%m/%d/%Y")`: the canonical rendering on
a valid date, `ValueError` (here `none`) otherwise. -/
def mkDate (m d y : Nat) : Option String :=
  if validDate m d y then some (fmtDate m d y) else none

/-- The English month names `strptime` matches for `%B`
(case-insensitively). -/
def monthNames : List (String × Nat) :=
  [("january", 1), ("february", 2), ("march", 3), ("april", 4), ("may", 5),
   ("june", 6), ("july", 7), ("august", 8), ("september", 9), ("october", 10),
   ("november", 11), ("december", 12)]

/-- Month number of a full month name, case-insensitively (strptime `%B`). -/
def monthIdx (s : String) : Option Nat :=
  (monthNames.find? (fun p => p.1 == lowerS s)).map (·.2)

/-- The third date shape of `clean_value`: regex
`[A-Za-z]+\s+\d{1,2},\s*\d{4}` anchored on both sides, then
`strptime(value, "%B %d, %Y")` (which needs a full month name, a valid
date and at least one whitespace character after the comma).  Returns
the `%m/%d/%Y` rendering on success. -/
def monthNameDate (cs : List Char) : Option String :=
  let letters := cs.takeWhile isAlphaC
  let r1 := cs.dropWhile isAlphaC
  if letters.isEmpty then none else
  let ws1 := r1.takeWhile wsChar
  let r2 := r1.dropWhile wsChar
  if ws1.isEmpty then none else
  let ds := r2.takeWhile isDigitC
  let r3 := r2.dropWhile isDigitC
  if ds.length = 0 || 2 < ds.length then none else
  match r3 with
  | ',' :: r4 =>
    let ws2 := r4.takeWhile wsChar
    let r5 := r4.dropWhile wsChar
    let ys := r5.takeWhile isDigitC
    let r6 := r5.dropWhile isDigitC
    if ys.length = 4 && r6.isEmpty && !ws2.isEmpty then
      match monthIdx ⟨letters⟩ with
      | some m => mkDate m (digitsValL ds) (digitsValL ys)
      | none => none
    else none
  | _ => none

/-- The date-standardisation step of `clean_value` (source lines
1026-1038): try the three anchored shapes `\d{1,2}/\d{1,2}/\d{4}`,
`\d{1,2}/\d{1,2}/\d{2}` and `Month DD, YYYY` in order; on a shape match
run `strptime` with the corresponding format (a `ValueError` falls
through to pass-through, i.e. `none` here); render a successful parse
as `%m/%d/%Y`.  `%y` maps 00-68 to 2000+ and 69-99 to 1900+. -/
def tryDate (s : String) : Option String :=
  match splitChar '/' s.data with
  | [ms, ds, ys] =>
    if 1 ≤ ms.length && ms.length ≤ 2 && allDigits ms &&
       1 ≤ ds.length && ds.length ≤ 2 && allDigits ds then
      if ys.length = 4 && allDigits ys then
        mkDate (digitsValL ms) (digitsValL ds) (digitsValL ys)
      else if ys.length = 2 && allDigits ys then
        let y2 := digitsValL ys
        mkDate (digitsValL ms) (digitsValL ds)
          (if y2 ≤ 68 then 2000 + y2 else 1900 + y2)
      else none
    else none
  | [_] => monthNameDate s.data
  | _ => none

/-- `value.replace("$", "").replace(",", "")`. -/
def stripDC (s : String) : String := ⟨s.data.filter (fun c => !(c == '$' || c == ','))⟩

/-- `CreditReportProcessor.clean_value` (source lines 1017-1040): map
falsy, `--` and `N/A` to the empty string; strip `$` and `,`; then try
the date shapes, passing unrecognised values through unchanged. -/
def clean_value (value : String) : String :=
  if value = "" || value = "--" || value = "N/A" then ""
  else
    let v := stripDC value
    match tryDate v with
    | some d => d
    | none => v

/-- The three credit bureaus, in the source's fixed order. -/
inductive Bureau : Type
  | transunion
  | experian
  | equifax
deriving DecidableEq, Repr

/-- The position of a bureau in the source's `bureaus` list. -/
def bIdx : Bureau → Nat
  | .transunion => 0
  | .experian => 1
  | .equifax => 2

/-- The lowercase name of a bureau (the dictionary keys of the source). -/
def bureauName : Bureau → String
  | .transunion => "transunion"
  | .experian => "experian"
  | .equifax => "equifax"

/-- A Python dict of string fields, embedded as an insertion-ordered
association list with upsert assignment. -/
abbrev KV : Type := List (String × String)

/-- The empty dict. -/
def kvEmpty : KV := []

/-- Dict assignment `d[k] = v`: replace an existing binding in place,
else append. -/
def setKV (kv : KV) (k v : String) : KV :=
  if (kv.map Prod.fst).contains k then
    kv.map (fun p => if p.1 = k then (k, v) else p)
  else kv ++ [(k, v)]

/-- Dict lookup returning `none` for an absent key. -/
def lookupKV (kv : KV) (k : String) : Option String :=
  (kv.find? (fun p => p.1 == k)).map (·.2)

/-- Python `k in d`. -/
def hasKey (kv : KV) (k : String) : Bool := (lookupKV kv k).isSome

/-- The composite-line fan-out of `parse_account` (source lines
838-847): the Python loop `for i, bureau in enumerate(bureaus)` guarded
by `len(values) >= 3` / `len(values) == 1`, assigning
`clean_value(values[i].strip())` per bureau. -/
def assignField (acc : Bureau → KV) (key : String) (values : List String) :
    Bureau → KV :=
  if 3 ≤ values.length then
    ([(0, Bureau.transunion), (1, Bureau.experian), (2, Bureau.equifax)]).foldl
      (fun a p =>
        if p.1 < values.length then
          fun b => if b = p.2 then setKV (a b) key (clean_value (trimS (values.getD p.1 ""))) else a b
        else a)
      acc
  else if values.length = 1 then
    ([Bureau.transunion, Bureau.experian, Bureau.equifax]).foldl
      (fun a b0 =>
        fun b => if b = b0 then setKV (a b) key (clean_value (trimS (values.getD 0 ""))) else a b)
      acc
  else acc

/-- First occurrence of `pat` inside `cs`, returning the suffix after
the occurrence (the tail a regex continues from). -/
def afterSubL (pat : List Char) : List Char → Option (List Char)
  | [] => if startsL pat [] then some [] else none
  | c :: cs =>
    if startsL pat (c :: cs) then some ((c :: cs).drop pat.length)
    else afterSubL pat cs

/-- `re.search(label + capture, text)` for the source's per-field
patterns `Label\s*([^\n]*)`: scan the lines in order, return the
remainder of the first line containing the label, with the whitespace
after the label skipped (line-based embedding of the regex scan; the
capture class `[^\n]*` stops at the line end). -/
def searchLabelValue (label : String) : List String → Option String
  | [] => none
  | l :: ls =>
    match afterSubL label.data l.data with
    | some rest => some ⟨lTrimL rest⟩
    | none => searchLabelValue label ls

/-- The `key_value_patterns` table of `parse_account` (source lines
808-831). -/
def accountPatterns : List (String × String) :=
  [("Account #", "account_number"),
   ("High Balance:", "high_balance"),
   ("Balance Owed:", "balance_owed"),
   ("Account Status:", "account_status"),
   ("Payment Status:", "payment_status"),
   ("Date Opened:", "date_opened"),
   ("Last Payment:", "last_payment"),
   ("Account Type:", "account_type"),
   ("Credit Limit:", "credit_limit"),
   ("Term Length:", "term_length"),
   ("Creditor Type:", "creditor_type"),
   ("Creditor Remarks:", "creditor_remarks"),
   ("Date Reported:", "date_reported"),
   ("Date of Last Activity:", "date_of_last_activity"),
   ("Past Due Amount:", "past_due_amount"),
   ("Last Verified:", "last_verified"),
   ("Closed Date:", "closed_date"),
   ("Account Rating:", "account_rating"),
   ("Account Description:", "account_description"),
   ("Dispute Status:", "dispute_status"),
   ("Payment Amount:", "payment_amount"),
   ("Payment Frequency:", "payment_frequency")]

/-- The field-extraction stage of `parse_account` (source lines
833-847): for each labelled pattern, take the first match's captured
value text, strip it, whitespace-tokenise it and apply the fan-out. -/
def parseAccountFields (lines : List String) : Bureau → KV :=
  accountPatterns.foldl
    (fun acc p =>
      match searchLabelValue p.1 lines with
      | some raw => assignField acc p.2 (pySplit (trimS raw))
      | none => acc)
    (fun _ => kvEmpty)

/-- The apostrophe character (kept symbolic; it appears in the
`'YY` year-shorthand month tokens). -/
def apos : Char := Char.ofNat 39

/-- Case-insensitive literal match at the head of `cs`; on success
return the consumed characters and the remainder. -/
def matchLitCI (pat : List Char) (cs : List Char) :
    Option (List Char × List Char) :=
  match pat, cs with
  | [], _ => some ([], cs)
  | _ :: _, [] => none
  | p :: ps, c :: cs2 =>
    if p.toLower == c.toLower then
      match matchLitCI ps cs2 with
      | some (tk, rest) => some (c :: tk, rest)
      | none => none
    else none

/-- One alternative of the month/year token pattern
`(Jan|Feb|Mar|Apr|May|Jun|Jul|Aug|Sep|Oct|Nov|Dec|'\d{2})` (compiled
with `re.IGNORECASE`), tried in the regex's left-to-right order at the
current position. -/
def tryMonthAlt (cs : List Char) : Option (List Char × List Char) :=
  let alts : List (List Char) :=
    [['J','a','n'], ['F','e','b'], ['M','a','r'], ['A','p','r'], ['M','a','y'],
     ['J','u','n'], ['J','u','l'], ['A','u','g'], ['S','e','p'], ['O','c','t'],
     ['N','o','v'], ['D','e','c']]
  match alts.findSome? (fun a => matchLitCI a cs) with
  | some r => some r
  | none =>
    match cs with
    | c :: d1 :: d2 :: rest =>
      if c == apos && isDigitC d1 && isDigitC d2 then
        some ([c, d1, d2], rest)
      else none
    | _ => none

/-- `NO\s*DATA` (case-insensitive): literal `NO`, a whitespace run,
literal `DATA`. -/
def tryNoData (cs : List Char) : Option (List Char × List Char) :=
  match matchLitCI ['N','O'] cs with
  | some (t1, r1) =>
    let ws := r1.takeWhile wsChar
    let r2 := r1.dropWhile wsChar
    match matchLitCI ['D','A','T','A'] r2 with
    | some (t2, r3) => some (t1 ++ ws ++ t2, r3)
    | none => none
  | none => none

/-- One alternative of the status token pattern
`(OK|30|60|90|120|150|CO|COLLECTION|NO\s*DATA)` (IGNORECASE), in the
regex's left-to-right order — note `CO` precedes `COLLECTION`, and
there is no bare-`NO` alternative. -/
def tryStatusAlt (cs : List Char) : Option (List Char × List Char) :=
  let alts : List (List Char) :=
    [['O','K'], ['3','0'], ['6','0'], ['9','0'], ['1','2','0'], ['1','5','0'],
     ['C','O'], ['C','O','L','L','E','C','T','I','O','N']]
  match alts.findSome? (fun a => matchLitCI a cs) with
  | some r => some r
  | none => tryNoData cs

/-- Python `pattern.findall(line)` scanning: at each position try the
alternation; on a match emit the matched text and continue after it,
else advance one character.  Fuel is the remaining length (every match
consumes at least one character). -/
def findallAux (alt : List Char → Option (List Char × List Char)) :
    Nat → List Char → List String
  | 0, _ => []
  | _ + 1, [] => []
  | f + 1, c :: cs =>
    match alt (c :: cs) with
    | some (tk, rest) => (⟨tk⟩ : String) :: findallAux alt f rest
    | none => findallAux alt f cs

/-- `month_year_token_pattern.findall(line)` (source line 867). -/
def monthFindall (line : String) : List String :=
  findallAux tryMonthAlt line.data.length line.data

/-- `status_token_pattern.findall(line)` (source line 872). -/
def statusFindall (line : String) : List String :=
  findallAux tryStatusAlt line.data.length line.data

/-- The per-status post-processing loop of `parse_account` (source
lines 910-917): uppercase each found status and rewrite a bare `NO`
to `NO DATA`. -/
def processStatuses (found : List String) : List String :=
  found.map (fun s => if upperS s = "NO" then "NO DATA" else upperS s)

/-- The section keywords whose presence (with no month/status token on
the line) stops the history scan (source lines 880-882). -/
def sectionKw (lower : String) : Bool :=
  ["days late", "account description", "summary", "inquiries",
   "public information", "account terms", "tradelines",
   "previous addresses", "credit score"].any (fun p => hasSub p lower)

/-- The bureau-header test of the history loop (source lines 885-893):
a bureau name occurs and `score` does not. -/
def bureauDetect (lower : String) : Option Bureau :=
  if hasSub "transunion" lower && !hasSub "score" lower then some .transunion
  else if hasSub "experian" lower && !hasSub "score" lower then some .experian
  else if hasSub "equifax" lower && !hasSub "score" lower then some .equifax
  else none

/-- The accumulation state of the payment-history loop: the cursor
`current_bureau`, the per-bureau token buffers
`temp_extracted_months_per_bureau` / `temp_extracted_statuses_per_bureau`,
and whether the loop has hit `break`. -/
structure PHState where
  cur : Option Bureau
  months : Bureau → List String
  statuses : Bureau → List String
  stopped : Bool

/-- The initial accumulation state (source lines 861-864). -/
def phInit : PHState :=
  ⟨none, fun _ => [], fun _ => [], false⟩

/-- One iteration of the history loop of `parse_account` (source lines
875-918): strip and lowercase the line; `break` on a section keyword
with no token match; switch bureaus on a bureau header; then, with a
current bureau, either finalise on a none-reported phrase or extend
both token buffers. -/
def phStep (st : PHState) (raw : String) : PHState :=
  if st.stopped then st
  else
    let line := trimS raw
    let lower := lowerS line
    if sectionKw lower && !(!(monthFindall line).isEmpty || !(statusFindall line).isEmpty) then
      { st with stopped := true }
    else
      match bureauDetect lower with
      | some b => { st with cur := some b }
      | none =>
        match st.cur with
        | none => st
        | some b =>
          if hasSub "none reported" lower || hasSub "no history" lower then
            { st with
              months := fun b2 => if b2 = b then [] else st.months b2,
              statuses := fun b2 => if b2 = b then ["NONE REPORTED"] else st.statuses b2,
              cur := none }
          else
            { st with
              months := fun b2 =>
                if b2 = b then st.months b2 ++ (monthFindall line).map upperS
                else st.months b2,
              statuses := fun b2 =>
                if b2 = b then st.statuses b2 ++ processStatuses (statusFindall line)
                else st.statuses b2 }

/-- Run the history loop over the lines after the header (the source
caps the loop at 99 lines past the header; the cap is applied by the
caller). -/
def runHistory (ls : List String) : PHState := ls.foldl phStep phInit

/-- A Python value that is either a string or a list of strings: the
source stores `"NONE REPORTED"` (a string) or a 24-slot list in the
same `statuses` field. -/
inductive Val : Type
  | str : String → Val
  | list : List String → Val
deriving DecidableEq, Repr

/-- A per-bureau `payment_history` entry `{"months": ..., "statuses": ...}`. -/
structure PHEntry where
  months : Val
  statuses : Val
deriving DecidableEq, Repr

/-- `value.replace("'", "")` applied to month tokens at finalisation
(source line 940). -/
def stripApos (s : String) : String := ⟨s.data.filter (fun c => !(c == apos))⟩

/-- The month-grid finalisation of `parse_account` (source lines
930-940): start from 24 empty slots, take the last 24 accumulated
month tokens and write them, apostrophes removed, into the trailing
slots by indexed assignment. -/
def finalizeMonths (extracted : List String) : List String :=
  let mtu := extracted.drop (extracted.length - 24)
  (List.range mtu.length).foldl
    (fun acc i => acc.set (24 - mtu.length + i) (stripApos (mtu.getD i "")))
    (List.replicate 24 "")

/-- The status-grid finalisation (source lines 935-943): same indexed
right-alignment with default `NO DATA` and no token rewriting. -/
def finalizeStatuses (extracted : List String) : List String :=
  let stu := extracted.drop (extracted.length - 24)
  (List.range stu.length).foldl
    (fun acc i => acc.set (24 - stu.length + i) (stu.getD i "NO DATA"))
    (List.replicate 24 "NO DATA")

/-- Per-bureau finalisation (source lines 921-952): a buffer containing
`NONE REPORTED` yields `{"months": [], "statuses": "NONE REPORTED"}`,
otherwise both 24-slot grids. -/
def finalizeBureau (ms ss : List String) : PHEntry :=
  if !ss.isEmpty && ss.contains "NONE REPORTED" then
    ⟨Val.list [], Val.str "NONE REPORTED"⟩
  else
    ⟨Val.list (finalizeMonths ms), Val.list (finalizeStatuses ss)⟩

/-- The whole payment-history stage of `parse_account` (source lines
850-956): locate the `Two-Year Payment History` header (case-sensitive
substring test); without it every bureau keeps the initial
`{"months": [], "statuses": []}` entry; with it, run the loop over the
following at most 99 lines and finalise each bureau. -/
def extractPaymentHistory (lines : List String) : Bureau → PHEntry :=
  match lines.findIdx? (fun l => hasSub "Two-Year Payment History" l) with
  | none => fun _ => ⟨Val.list [], Val.list []⟩
  | some h =>
    let st := runHistory ((lines.drop (h + 1)).take 99)
    fun b => finalizeBureau (st.months b) (st.statuses b)

/-- The character class `[A-Z\s&.,'"-]` of the creditor-line pattern in
`parse_account`. -/
def creditorChar (c : Char) : Bool :=
  (65 ≤ c.toNat && c.toNat ≤ 90) || wsChar c || c == '&' || c == '.' || c == ',' ||
  c == apos || c == Char.ofNat 34 || c == '-'

/-- The creditor-name loop of `parse_account` (source lines 784-794):
line 0 always joins; later non-empty lines join while they match
`^[A-Z\s&.,'"-]+$` and contain none of the account labels; the first
other non-empty line stops the loop (empty lines are skipped without
stopping). -/
def creditorLines : Nat → List String → List String
  | _, [] => []
  | i, l :: ls =>
    let t := trimS l
    if t = "" then creditorLines (i + 1) ls
    else if i = 0 ||
        (!t.data.isEmpty && t.data.all creditorChar &&
         !(hasSub "account #" (lowerS t) || hasSub "high balance" (lowerS t) ||
           hasSub "balance owed" (lowerS t))) then
      t :: creditorLines (i + 1) ls
    else []

/-- An `Account` record as built by `parse_account`. -/
structure Account where
  creditor : String
  fields : Bureau → KV
  payment_history : Bureau → PHEntry

/-- `parse_account` (source lines 782-962): creditor name, fan-out
field extraction, payment-history grids. -/
def parse_account (lines : List String) : Account :=
  { creditor := trimS (String.intercalate " " (creditorLines 0 lines)),
    fields := parseAccountFields lines,
    payment_history := extractPaymentHistory lines }

/-- A `Collection` record as built by `parse_collection`. -/
structure Collection where
  agency : String
  fields : Bureau → KV

/-- The character class of the agency-name patterns: uppercase
letters, digits, whitespace, ampersand, period, comma, quote
characters, hyphen, slash. -/
def agencyChar (c : Char) : Bool :=
  (65 ≤ c.toNat && c.toNat ≤ 90) || isDigitC c || wsChar c || c == '&' || c == '.' ||
  c == ',' || c == apos || c == Char.ofNat 34 || c == '-' || c == '/'

/-- Validate an agency line against the non-greedy agency capture of
the source: right-trimmed, non-trivial, first character an uppercase
letter, all characters in the agency class. -/
def validAgencyLine (s : String) : Option String :=
  let t : List Char := rTrimL s.data
  match t with
  | [] => none
  | c :: _ =>
    if (65 ≤ c.toNat && c.toNat ≤ 90) && 2 ≤ t.length && t.all agencyChar then
      some ⟨t⟩
    else none

/-- Is this line the `Collection\s*\n` marker: the literal
`Collection` followed only by whitespace? -/
def collectionMarker (l : String) : Bool :=
  match afterSubL ['C','o','l','l','e','c','t','i','o','n'] l.data with
  | some rest => rest.all wsChar
  | none => false

/-- The agency-name extraction of `parse_collection` (source lines
633-640), embedded line-wise: the first regex wants `Collection`
followed by a newline and captures the next line; the fallback regex
is anchored at the start of the section and captures its first line. -/
def agencyOf (lines : List String) : Option String :=
  match lines.findIdx? collectionMarker with
  | some i =>
    match validAgencyLine (lines.getD (i + 1) "") with
    | some a => some a
    | none => validAgencyLine (lines.getD 0 "")
  | none => validAgencyLine (lines.getD 0 "")

/-- The capture kinds of the collection `key_value_patterns` (source
lines 651-659): `[^\n]*` rest-of-line, `\$?[0-9,.]+` money,
`[0-9/]+` date, `[0-9/]*` possibly-empty date. -/
inductive CapKind : Type
  | rest
  | money
  | dateReq
  | dateOpt

/-- Try one collection pattern on one line: find the label, then apply
the capture kind to the remainder (leading whitespace is consumed by
the patterns' `\s*`). -/
def capInLine (label : String) (k : CapKind) (l : String) : Option String :=
  match afterSubL label.data l.data with
  | none => none
  | some rest0 =>
    let rest := lTrimL rest0
    match k with
    | .rest => some ⟨rest⟩
    | .money =>
      let rest1 := if rest.headD ' ' == '$' then rest.tail else rest
      let run := rest1.takeWhile (fun c => isDigitC c || c == ',' || c == '.')
      if run.isEmpty then none else some ⟨run⟩
    | .dateReq =>
      let run := rest.takeWhile (fun c => isDigitC c || c == '/')
      if run.isEmpty then none else some ⟨run⟩
    | .dateOpt =>
      some ⟨rest.takeWhile (fun c => isDigitC c || c == '/')⟩

/-- `re.findall(pattern, collection_text)` for one labelled pattern,
embedded line-wise (at most one match per line, in line order). -/
def collectFindall (label : String) (k : CapKind) (lines : List String) :
    List String :=
  lines.filterMap (capInLine label k)

/-- The collection `key_value_patterns` table (source lines 651-659). -/
def collectionPatterns : List (String × CapKind × String) :=
  [("Account #", CapKind.rest, "account_number"),
   ("High Balance:", CapKind.money, "high_balance"),
   ("Balance Owed:", CapKind.money, "balance_owed"),
   ("Date Reported:", CapKind.dateReq, "date_reported"),
   ("Date Opened:", CapKind.dateReq, "date_opened"),
   ("Original Creditor", CapKind.rest, "original_creditor"),
   ("Last Payment:", CapKind.dateOpt, "last_payment")]

/-- The fan-out of `parse_collection` (source lines 662-676): with
three or more `findall` matches assign `clean_value(matches[i])` to
bureau `i` for the first three, with exactly one broadcast it, else
leave unset. -/
def assignFieldC (acc : Bureau → KV) (key : String) (ms : List String) :
    Bureau → KV :=
  if 3 ≤ ms.length then
    ([(0, Bureau.transunion), (1, Bureau.experian), (2, Bureau.equifax)]).foldl
      (fun a p =>
        if p.1 < ms.length then
          fun b => if b = p.2 then setKV (a b) key (clean_value (ms.getD p.1 "")) else a b
        else a)
      acc
  else if ms.length = 1 then
    ([Bureau.transunion, Bureau.experian, Bureau.equifax]).foldl
      (fun a b0 =>
        fun b => if b = b0 then setKV (a b) key (clean_value (ms.getD 0 "")) else a b)
      acc
  else acc

/-- The `has_data` test of `parse_collection` (source lines 679-683). -/
def hasData (f : Bureau → KV) : Bool :=
  !(f Bureau.transunion).isEmpty || !(f Bureau.experian).isEmpty ||
  !(f Bureau.equifax).isEmpty

/-- `parse_collection` (source lines 630-685): `None` without an agency
name; otherwise extract every pattern with the fan-out and return the
record only if at least one bureau dict is non-empty. -/
def parse_collection (lines : List String) : Option Collection :=
  match agencyOf lines with
  | none => none
  | some ag =>
    let f := collectionPatterns.foldl
      (fun acc p => assignFieldC acc p.2.2 (collectFindall p.1 p.2.1 lines))
      (fun _ => kvEmpty)
    if hasData f then some ⟨ag, f⟩ else none

/-- The per-section loop of `extract_collections` (source lines
620-626): parse each section, appending only non-`None` results (a
raised per-item exception is likewise skipped). -/
def extract_collections (sections : List (List String)) : List Collection :=
  sections.filterMap parse_collection

/-- A word as returned by `page.extract_words()`: text plus the
horizontal (`x0`) and vertical (`top`) coordinates used by the
clusterer.  Coordinates are embedded as rationals. -/
structure PWord where
  text : String
  x0 : ℚ
  top : ℚ
deriving DecidableEq

/-- A `pdfplumber` page, at the interface the core uses: its word
list. -/
abbrev Page : Type := List PWord

/-- The external clustering collaborator (`sklearn.cluster.KMeans`
with `n_clusters=3`): a function from the x-coordinate list to a label
per word.  It is a parameter of the model; at convergence the centre
of each cluster is the mean of its members' coordinates. -/
abbrev KMeansFn : Type := List ℚ → List (Fin 3)

/-- The converged centre of cluster `j`: the mean x-coordinate of the
points labelled `j`. -/
def clusterCenter (pts : List (ℚ × Fin 3)) (j : Fin 3) : ℚ :=
  let g := pts.filter (fun q => q.2 = j)
  (g.map (·.1)).sum / g.length

/-- Stable insertion of a pair by its second component (ascending). -/
def insPair (a : Fin 3 × ℚ) : List (Fin 3 × ℚ) → List (Fin 3 × ℚ)
  | [] => [a]
  | b :: t => if b.2 ≤ a.2 then b :: insPair a t else a :: b :: t

/-- `sorted([(i, c[0]) for i, c in enumerate(centers)], key=lambda x: x[1])`
(source lines 280 and 175): the three `(cluster index, centre)` pairs
sorted by centre, ascending and stable. -/
def sortedCenters (c : Fin 3 → ℚ) : List (Fin 3 × ℚ) :=
  insPair (0, c 0) (insPair (1, c 1) (insPair (2, c 2) []))

/-- The `cluster_to_bureau` mapping (source lines 281-285 and 176-180):
the cluster with the smallest centre is `transunion`, the middle one
`experian`, the largest `equifax`. -/
def clusterToBureau (c : Fin 3 → ℚ) (j : Fin 3) : Bureau :=
  let s := sortedCenters c
  if (s.getD 0 (0, 0)).1 = j then .transunion
  else if (s.getD 1 (0, 0)).1 = j then .experian
  else .equifax

/-- The vertical-line key lookup `get_aligned_top` (source lines
295-299): reuse the first existing key within the tolerance, else open
a new one. -/
def alignedTop (tol : ℚ) (t : ℚ) (keys : List ℚ) : ℚ :=
  match keys.find? (fun e => |e - t| ≤ tol) with
  | some e => e
  | none => t

/-- Insert a word into the per-bureau line dictionary (insertion-ordered
association list from aligned `top` to the `(x0, text)` list). -/
def groupInsert (tol : ℚ) (g : List (ℚ × List (ℚ × String))) (w : PWord) :
    List (ℚ × List (ℚ × String)) :=
  let key := alignedTop tol w.top (g.map Prod.fst)
  if (g.map Prod.fst).contains key then
    g.map (fun p => if p.1 = key then (p.1, p.2 ++ [(w.x0, w.text)]) else p)
  else g ++ [(key, [(w.x0, w.text)])]

/-- Lexicographic order on `(x0, text)` pairs, as Python's tuple sort
uses inside `sorted(word_group)`. -/
def pairLE (a b : ℚ × String) : Bool :=
  a.1 < b.1 || (a.1 = b.1 && (a.2 < b.2 || a.2 = b.2))

/-- Stable insertion sort by a boolean `≤`. -/
def insSortBy (le : α → α → Bool) : List α → List α
  | [] => []
  | a :: t =>
    let rec ins (a : α) : List α → List α
      | [] => [a]
      | b :: t => if le b a then b :: ins a t else a :: b :: t
    ins a (insSortBy le t)

/-- Render one bureau's grouped words (source lines 306-313 and
200-209): lines sorted by top, words in a line sorted by `(x0, text)`,
words joined by one space, lines joined by two. -/
def renderGroups (g : List (ℚ × List (ℚ × String))) : String :=
  String.intercalate "  "
    ((insSortBy (fun a b => a.1 ≤ b.1) g).map
      (fun p => String.intercalate " " ((insSortBy pairLE p.2).map (·.2))))

/-- Distribute words to bureaus by cluster label and group them
vertically (the common shape of the name / previous-address blocks).
`labels.getD i 0` embeds `labels[i]` (KMeans always returns one label
per sample). -/
def buildGroups (ws : List PWord) (labels : List (Fin 3)) (b : Bureau) :
    List (ℚ × List (ℚ × String)) :=
  let pts := (ws.map (·.x0)).zip labels
  ((List.range ws.length).filter
      (fun i => clusterToBureau (clusterCenter pts) (labels.getD i 0) = b)).foldl
    (fun g i => groupInsert (5/2) g (ws.getD i ⟨"", 0, 0⟩))
    []

/-- Set one key to a per-bureau value on all three bureau dicts. -/
def setAllB (s : Bureau → KV) (key : String) (v : Bureau → String) : Bureau → KV :=
  fun b => setKV (s b) key (v b)

/-- The name-window scan of `extract_personal_info` (source lines
148-156): the first word containing `name` opens the window at
`top - 1`; after that, the first word containing a section trigger
closes it at its `top`. -/
def nameBounds : Option ℚ → List PWord → Option ℚ × Option ℚ
  | ns, [] => (ns, none)
  | ns, w :: ws =>
    let t := lowerS w.text
    if hasSub "name" t && ns.isNone then nameBounds (some (w.top - 1)) ws
    else if ns.isSome &&
        (["also", "date", "consumer", "transunion", "equifax", "experian",
          "https", "statement"].any (fun k => hasSub k t)) then
      (ns, some w.top)
    else nameBounds ns ws

/-- `Date of Birth\s+(\d{4})` searched in one line (source line 219). -/
def dobMatch (l : String) : Option String :=
  match afterSubL ("Date of Birth").data l.data with
  | none => none
  | some rest =>
    let ws1 := rest.takeWhile wsChar
    let r2 := rest.dropWhile wsChar
    let ds := r2.takeWhile isDigitC
    if !ws1.isEmpty && 4 ≤ ds.length then some ⟨ds.take 4⟩ else none

/-- The name block of `extract_personal_info` (source lines 147-224):
locate the window, require at least 6 words, cluster by `x0`, assign
clusters to bureaus left-to-right, group vertically and join; an empty
result becomes `N/A`.  The birth-year loop sits inside the success
branch of the source, so it is reached only when a name was
clustered. -/
def nameBlock (words : List PWord) (lines : List String) (km : KMeansFn)
    (pi : Bureau → KV) : Bureau → KV :=
  match nameBounds none words with
  | (some ns, some ne) =>
    let nws := words.filter
      (fun w => ns ≤ w.top && w.top < ne && !(lowerS w.text = "name"))
    if nws.length < 6 then pi
    else
      let labels := km (nws.map (·.x0))
      let pi2 := setAllB pi "name" (fun b =>
        let fn := trimS (renderGroups (buildGroups nws labels b))
        if fn = "" then "N/A" else fn)
      match lines.findSome? dobMatch with
      | some y => setAllB pi2 "year_of_birth" (fun _ => y)
      | none => pi2
  | _ => pi

/-- Remove every occurrence of `pat` (Python `str.replace(pat, "")`);
fuel keeps the recursion structural. -/
def removeSubF (pat : List Char) : Nat → List Char → List Char
  | 0, cs => cs
  | _ + 1, [] => []
  | f + 1, c :: cs =>
    if !pat.isEmpty && startsL pat (c :: cs) then
      removeSubF pat f ((c :: cs).drop pat.length)
    else c :: removeSubF pat f cs

/-- Python `s.replace(pat, "")`. -/
def removeSub (pat s : String) : String :=
  ⟨removeSubF pat.data s.data.length s.data⟩

/-- The current-address block (source lines 226-242): on the first line
containing `Current Address`, drop the label, take the next line as the
city line, and if both split into at least 3 words give TransUnion the
first third of each. -/
def currAddrBlock (lines : List String) (pi : Bureau → KV) : Bureau → KV :=
  match lines.findIdx? (fun l => hasSub "Current Address" l) with
  | none => pi
  | some i =>
    let street := trimS (removeSub "Current Address" (lines.getD i ""))
    let city := trimS (lines.getD (i + 1) "")
    let sp := pySplit street
    let cp := pySplit city
    if 3 ≤ sp.length && 3 ≤ cp.length then
      fun b =>
        if b = .transunion then
          setKV (pi b) "current_address"
            (trimS (String.intercalate " " (sp.take (sp.length / 3)) ++ " " ++
              String.intercalate " " (cp.take (cp.length / 3))))
        else pi b
    else pi

/-- `Credit Report Date\s+(\d{1,2}/\d{1,2}/\d{4})` searched in one line
(source line 246), embedded at the first label occurrence. -/
def reportDateMatch (l : String) : Option String :=
  match afterSubL ("Credit Report Date").data l.data with
  | none => none
  | some rest =>
    let ws1 := rest.takeWhile wsChar
    let r2 := rest.dropWhile wsChar
    let d1 := r2.takeWhile isDigitC
    let r3 := r2.dropWhile isDigitC
    if ws1.isEmpty || d1.isEmpty || 2 < d1.length then none else
    match r3 with
    | '/' :: r4 =>
      let d2 := r4.takeWhile isDigitC
      let r5 := r4.dropWhile isDigitC
      if d2.isEmpty || 2 < d2.length then none else
      match r5 with
      | '/' :: r6 =>
        let d3 := r6.takeWhile isDigitC
        if 4 ≤ d3.length then
          some ⟨d1 ++ '/' :: d2 ++ '/' :: d3.take 4⟩
        else none
      | _ => none
    | _ => none

/-- The report-date loop (source lines 244-250): every matching line
sets the date for all three bureaus (no break; the last match wins). -/
def reportDateBlock (lines : List String) (pi : Bureau → KV) : Bureau → KV :=
  lines.foldl
    (fun s l =>
      match reportDateMatch l with
      | some d => setAllB s "report_date" (fun _ => d)
      | none => s)
    pi

/-- The previous-address window scan (source lines 252-263). -/
def prevBounds : Option ℚ → List PWord → Option ℚ × Option ℚ
  | ps, [] => (ps, none)
  | ps, w :: ws =>
    let t := lowerS w.text
    if (hasSub "previous" t || hasSub "prior" t) && ps.isNone then
      prevBounds (some (w.top - 1)) ws
    else if ps.isSome &&
        (["employer", "date", "consumer", "transunion", "experian", "equifax",
          "statement", "https"].any (fun k => hasSub k t)) then
      (ps, some (w.top - 2))
    else prevBounds ps ws

/-- The previous-address block (source lines 252-315).  The source
filters `prev_start < w["top"] < prev_end` without a `None` check, so a
missing bound raises `TypeError` as soon as the comparison is
evaluated on some word (for a missing end bound, on the first word
above the start).  With both bounds, fewer than 9 window words end the
function early; otherwise each bureau gets the joined lines of its
cluster. -/
def prevAddrBlock (words : List PWord) (km : KMeansFn) (pi : Bureau → KV) :
    Except String (Bureau → KV) :=
  match prevBounds none words with
  | (none, _) =>
    if words.isEmpty then .ok pi
    else .error "TypeError: unsupported comparison between NoneType and float"
  | (some ps, none) =>
    if words.any (fun w => ps < w.top) then
      .error "TypeError: unsupported comparison between NoneType and float"
    else .ok pi
  | (some ps, some pe) =>
    let aw := words.filter
      (fun w => ps < w.top && w.top < pe &&
        !(lowerS w.text = "previous" || lowerS w.text = "address"))
    if aw.length < 9 then .ok pi
    else
      let labels := km (aw.map (·.x0))
      .ok (setAllB pi "previous_address"
        (fun b => renderGroups (buildGroups aw labels b)))

/-- `page.extract_words()` behind the optional page: the PyPDF2
fallback hands `parse_credit_report` a `None` page (source line 112),
and `extract_personal_info` dereferences it with no guard (source line
140), which raises `AttributeError`. -/
def extract_words : Option Page → Except String (List PWord)
  | none => .error "AttributeError: NoneType object has no attribute extract_words"
  | some p => .ok p

/-- `extract_personal_info` (source lines 131-426), embedding the word
extraction, the name block (with birth year), the current-address and
report-date loops and the previous-address block.  The employer block
(source lines 316-426) lies after the previous-address early return,
is reached on no input exercised here and bears on no claim, so it is
not modelled. -/
def extract_personal_info (lines : List String) (page : Option Page)
    (km : KMeansFn) : Except String (Bureau → KV) := do
  let words ← extract_words page
  let pi1 := nameBlock words lines km (fun _ => kvEmpty)
  let pi2 := currAddrBlock lines pi1
  let pi3 := reportDateBlock lines pi2
  prevAddrBlock words km pi3

/-- One extracted inquiry row (source lines 578-582). -/
structure Inquiry where
  creditor : String
  date : String
  bureau : String

/-- The regex-match results that `extract_summary` (source lines
427-467) computes over the whole text with its `summary_patterns`
table: one optional three-group match per pattern, in the table's
order, plus the two `alt_inquiry_patterns`.  The regex engine is the
external boundary; the table structure and the assignment logic are
embedded below. -/
structure SummaryMatches where
  total_accounts : Option (String × String × String)
  open_accounts : Option (String × String × String)
  closed_accounts : Option (String × String × String)
  delinquent : Option (String × String × String)
  derogatory : Option (String × String × String)
  balances : Option (String × String × String)
  monthly_payments : Option (String × String × String)
  credit_utilization : Option (String × String × String)
  public_records : Option (String × String × String)
  inquiries_2y : Option (String × String × String)
  inquiries_alt : Option (String × String × String)
  alt1 : Option (String × String × String)
  alt2 : Option (String × String × String)

/-- The group of a three-group match belonging to a bureau
(`match.group(i+1)`). -/
def pick3 (t : String × String × String) : Bureau → String
  | .transunion => t.1
  | .experian => t.2.1
  | .equifax => t.2.2

/-- The per-pattern assignment loop of `extract_summary` (source lines
446-453) for an ordinary key. -/
def applyPat (s : Bureau → KV) (key : String)
    (mo : Option (String × String × String)) : Bureau → KV :=
  match mo with
  | none => s
  | some t => fun b => setKV (s b) key (pick3 t b)

/-- The same loop for the `inquiries_alt` key (source lines 450-453):
per bureau, fill `inquiries_2y` when it is still absent, otherwise
store under `inquiries_alt`. -/
def applyAltPat (s : Bureau → KV)
    (mo : Option (String × String × String)) : Bureau → KV :=
  match mo with
  | none => s
  | some t => fun b =>
    if !hasKey (s b) "inquiries_2y" then setKV (s b) "inquiries_2y" (pick3 t b)
    else setKV (s b) "inquiries_alt" (pick3 t b)

/-- The list of the three bureaus, in source order. -/
def bureausL : List Bureau := [.transunion, .experian, .equifax]

/-- The first nine rows of the `summary_patterns` table (source lines
430-439), applied in the table's order. -/
def summaryBase (m : SummaryMatches) : Bureau → KV :=
  applyPat
    (applyPat
      (applyPat
        (applyPat
          (applyPat
            (applyPat
              (applyPat
                (applyPat
                  (applyPat (fun _ => kvEmpty) "total_accounts" m.total_accounts)
                  "open_accounts" m.open_accounts)
                "closed_accounts" m.closed_accounts)
              "delinquent" m.delinquent)
            "derogatory" m.derogatory)
          "balances" m.balances)
        "monthly_payments" m.monthly_payments)
      "credit_utilization" m.credit_utilization)
    "public_records" m.public_records

/-- The full main pattern loop of `extract_summary` (source lines
446-453): the nine ordinary rows, then `inquiries_2y`, then the
conditional `inquiries_alt` row. -/
def summaryMain (m : SummaryMatches) : Bureau → KV :=
  applyAltPat (applyPat (summaryBase m) "inquiries_2y" m.inquiries_2y)
    m.inquiries_alt

/-- `extract_summary` (source lines 427-467): apply the pattern table
in order, then, if no bureau got `inquiries_2y`, try the two alternate
inquiry patterns in order, the first match filling all three
bureaus. -/
def extract_summary (m : SummaryMatches) : Bureau → KV :=
  if !(bureausL.any (fun b => hasKey (summaryMain m b) "inquiries_2y")) then
    match m.alt1 with
    | some t => fun b => setKV (summaryMain m b) "inquiries_2y" (pick3 t b)
    | none =>
      match m.alt2 with
      | some t => fun b => setKV (summaryMain m b) "inquiries_2y" (pick3 t b)
      | none => summaryMain m
  else summaryMain m

/-- `update_inquiry_counts` (source lines 469-501): do nothing if any
bureau already has `inquiries_2y`; otherwise tally the extracted
inquiries per bureau; if only unrecognised bureaus were seen, fall
back to the stored summary counts or to the total count; finally store
the per-bureau tallies.  `inqCount` is the per-bureau tally of the
extracted inquiries (`counts[bureau]`). -/
def inqCount (inqs : List Inquiry) (b : Bureau) : Nat :=
  (inqs.filter (fun q => lowerS q.bureau = bureauName b)).length

/-- The `counts["unknown"]` tally: inquiries naming none of the three
bureaus. -/
def inqUnknown (inqs : List Inquiry) : Nat :=
  (inqs.filter
    (fun q => !(lowerS q.bureau = "transunion" || lowerS q.bureau = "experian" ||
      lowerS q.bureau = "equifax"))).length

/-- `update_inquiry_counts` itself (source lines 469-501). -/
def update_inquiry_counts (s : Bureau → KV) (inqs : List Inquiry)
    (sd : Option (Nat × Nat × Nat)) : Bureau → KV :=
  if bureausL.any (fun b => hasKey (s b) "inquiries_2y") then s
  else
    if 0 < inqUnknown inqs && inqCount inqs .transunion = 0 &&
        inqCount inqs .experian = 0 && inqCount inqs .equifax = 0 then
      match sd with
      | some t =>
        fun b => setKV (s b) "inquiries_2y"
          (natStr (match b with
            | .transunion => t.1
            | .experian => t.2.1
            | .equifax => t.2.2))
      | none => fun b => setKV (s b) "inquiries_2y" (natStr inqs.length)
    else fun b => setKV (s b) "inquiries_2y" (natStr (inqCount inqs b))

/-- The root aggregate assembled by `parse_credit_report` (the fields
the claims concern). -/
structure Report where
  personal_info : Bureau → KV
  summary : Bureau → KV
  accounts : List Account
  collections : List Collection
  inquiries : List Inquiry

/-- `parse_credit_report` (source lines 120-129), with the section
segmentation and the regex-scanning boundaries (summary matches,
inquiry rows, stored inquiry counts) passed as inputs: run the
extractors in source order; an exception raised by
`extract_personal_info` propagates, there is no handler. -/
def parse_credit_report (lines : List String) (page : Option Page)
    (km : KMeansFn) (sm : SummaryMatches)
    (accountSections : List (List String))
    (collectionSections : List (List String))
    (inqs : List Inquiry) (sd : Option (Nat × Nat × Nat)) :
    Except String Report := do
  let pi ← extract_personal_info lines page km
  let s1 := extract_summary sm
  let accounts := accountSections.map parse_account
  let collections := extract_collections collectionSections
  let s2 := update_inquiry_counts s1 inqs sd
  .ok ⟨pi, s2, accounts, collections, inqs⟩

/-- The `'24` year-shorthand month token (apostrophe kept symbolic). -/
def tick24 : String := ⟨[apos, '2', '4']⟩

/-- A history line carrying the `'24` month token and an `OK` status. -/
def tickLine : String := ⟨[apos, '2', '4', ' ', 'O', 'K']⟩

/-- A concrete collection section used to instantiate the collection
invariant. -/
def sampleSection : List String := ["Collection", "ABC AGENCY", "Account # 123"]

/-- The collection parsed from `sampleSection`. -/
def collection0 : Collection :=
  (parse_collection sampleSection).getD ⟨"", fun _ => kvEmpty⟩

/-- A mid-accumulation state (cursor on TransUnion, empty buffers),
used to instantiate the sentinel step theorem. -/
def phSt0 : PHState := ⟨some Bureau.transunion, fun _ => [], fun _ => [], false⟩

/-- An empty set of summary regex matches. -/
def smNone : SummaryMatches :=
  ⟨none, none, none, none, none, none, none, none, none, none, none, none, none⟩

/-- The report produced by a minimal successful parse (empty document,
a page with no words, no matches, no inquiries). -/
def report0 : Report :=
  (parse_credit_report [] (some []) (fun _ => []) smNone [] [] [] none).toOption.getD
    ⟨fun _ => kvEmpty, fun _ => kvEmpty, [], [], []⟩

/-- Three one-word clusters at x = 100, 300, 500 (labels in input
order). -/
def ptsc : List (ℚ × Fin 3) := [(100, 0), (300, 1), (500, 2)]

/-- A cyclic relabelling of the clusters. -/
def wtau : Fin 3 → Fin 3 := fun k => k + 1

/-- The same words in a different input order with the labels
relabelled by `wtau`. -/
def pts2c : List (ℚ × Fin 3) := [(300, 2), (500, 0), (100, 1)]

/-!  Theorems.  Each claim of the specification gets one theorem (plus,
where required, a witness instantiating its hypotheses and a
counterexample refuting the claim as literally stated). -/

/-- C4: the spec says that when word-level extraction is unavailable
(PyPDF2 fallback, page object `None`) the personal-info fields degrade
to an unavailable value and the pipeline still returns an aggregate.
The code instead dereferences the `None` page in
`extract_personal_info` (source line 140) with no handler in
`parse_credit_report`, so the whole parse fails with `AttributeError`
for every input: the claim describes the intended behaviour, the code
is a slip. -/
theorem C4_none_page_error (lines : List String) (km : KMeansFn)
    (sm : SummaryMatches) (accT collT : List (List String))
    (inqs : List Inquiry) (sd : Option (Nat × Nat × Nat)) :
    parse_credit_report lines none km sm accT collT inqs sd =
      Except.error "AttributeError: NoneType object has no attribute extract_words" := rfl

/-- C6: evaluation of `clean_value` at the claim's inputs.  The two
slash-date shapes are rewritten to `MM/DD/YYYY`, currency symbols and
thousands separators are stripped, and `--`, empty and `N/A` map to
the empty string; but `clean_value "March 5, 2024"` returns
`"March 5 2024"`, not `"03/05/2024"`: the comma is stripped before
date matching, so the `Month DD, YYYY` pattern (which requires a
comma) in the code's own pattern table can never match. -/
theorem C6_clean_value_eval :
    clean_value "03/5/24" = "03/05/2024" ∧
    clean_value "3/5/2024" = "03/05/2024" ∧
    clean_value "March 5, 2024" = "March 5 2024" ∧
    ("March 5 2024" : String) ≠ "03/05/2024" ∧
    clean_value "$1,234.56" = "1234.56" ∧
    clean_value "--" = "" ∧
    clean_value "N/A" = "" ∧
    clean_value "" = "" := by decide

/-- C8: evaluation at a history line carrying a standalone `NO` token.
The line's whitespace tokens contain `NO`, yet the status stream
records nothing for it — the status alternation has no bare-`NO`
alternative, so the `NO` to `NO DATA` rewriting branch (source lines
912-915) is unreachable and the token is silently dropped, shifting
the right-aligned statuses relative to the claimed behaviour. -/
theorem C8_bare_no_eval :
    (pySplit "Jan OK Feb NO Mar 30").contains "NO" = true ∧
    processStatuses (statusFindall "Jan OK Feb NO Mar 30") = ["OK", "30"] ∧
    (processStatuses (statusFindall "Jan OK Feb NO Mar 30")).contains "NO DATA" = false ∧
    extractPaymentHistory
        ["Two-Year Payment History", "TransUnion", "Jan OK Feb NO Mar 30"]
        Bureau.transunion =
      ⟨Val.list (List.replicate 21 "" ++ ["JAN", "FEB", "MAR"]),
       Val.list (List.replicate 22 "NO DATA" ++ ["OK", "30"])⟩ := by decide

/-- C1 counterexample: a composite line with four whitespace tokens.
The claim says any token count other than 3 and 1 leaves every bureau
value unset, but the code's `len(values) >= 3` branch assigns the
first three tokens, so `balance_owed` is set (to `100` for
TransUnion). -/
theorem C1_counterexample :
    (pySplit (trimS "100 200 300 400")).length = 4 ∧
    parseAccountFields ["Balance Owed: 100 200 300 400"] Bureau.transunion =
      [("balance_owed", "100")] ∧
    lookupKV (parseAccountFields ["Balance Owed: 100 200 300 400"]
      Bureau.transunion) "balance_owed" ≠ none := by decide

/-- C2 counterexample: the extracted month token stream of the line
`'24 OK` is `['24]`, but the stored months grid holds `24` in its last
slot — month tokens are stored with apostrophes removed (source line
940), so the grid does not contain the extracted token itself. -/
theorem C2_counterexample :
    monthFindall tickLine = [tick24] ∧
    upperS tick24 = tick24 ∧
    extractPaymentHistory
        ["Two-Year Payment History", "TransUnion", tickLine]
        Bureau.transunion =
      ⟨Val.list (List.replicate 23 "" ++ ["24"]),
       Val.list (List.replicate 23 "NO DATA" ++ ["OK"])⟩ ∧
    (List.replicate 23 "" ++ ["24"]) ≠ (List.replicate 23 "" ++ [tick24]) := by
  decide

/-- C3 counterexample: after `TRANSUNION` followed by `NONE REPORTED`,
the TransUnion entry is `{"months": [], "statuses": "NONE REPORTED"}`:
the sentinel string replaces only the statuses, while the months field
is replaced by the empty list, not by the sentinel. -/
theorem C3_counterexample :
    extractPaymentHistory
        ["Two-Year Payment History", "TransUnion", "NONE REPORTED"]
        Bureau.transunion =
      ⟨Val.list [], Val.str "NONE REPORTED"⟩ ∧
    Val.list ([] : List String) ≠ Val.str "NONE REPORTED" := by decide

/-- C5 counterexample: `clean_value` is not idempotent on `$--`: the
first pass strips the dollar sign and returns the literal `--`, which
the second pass maps to the empty string. -/
theorem C5_counterexample :
    clean_value "$--" = "--" ∧
    clean_value (clean_value "$--") = "" ∧
    ("" : String) ≠ "--" := by decide

theorem find_replaced (k v : String) :
    ∀ t : List (String × String), (t.map Prod.fst).contains k = true →
      (t.map (fun p => if p.1 = k then (k, v) else p)).find?
        (fun p => p.1 == k) = some (k, v) := by
  intro t
  induction t with
  | nil => intro hc; simp [List.contains] at hc
  | cons p t ih =>
    intro hc
    by_cases hp : p.1 = k
    · simp [List.find?, hp]
    · have hc2 : (t.map Prod.fst).contains k = true := by
        have hcc := hc
        rw [List.map_cons, List.contains_cons] at hcc
        rcases Bool.or_eq_true_iff.mp hcc with h1 | h2
        · have hk : k = p.1 := by simpa using h1
          exact absurd hk.symm hp
        · exact h2
      have hb : (p.1 == k) = false := by simpa using hp
      simp only [List.map_cons, List.find?, if_neg hp, hb]
      exact ih hc2

theorem find_appended (k v : String) :
    ∀ t : List (String × String), ¬ (t.map Prod.fst).contains k = true →
      (t ++ [(k, v)]).find? (fun p => p.1 == k) = some (k, v) := by
  intro t
  induction t with
  | nil => intro _; simp [List.find?]
  | cons p t ih =>
    intro hc
    have hp : ¬ p.1 = k := by
      intro he
      apply hc
      rw [List.map_cons, List.contains_cons]
      have hb : (k == p.1) = true := by simpa using he.symm
      rw [hb, Bool.true_or]
    have hc2 : ¬ (t.map Prod.fst).contains k = true := by
      intro hm
      apply hc
      rw [List.map_cons, List.contains_cons, hm, Bool.or_true]
    have hb : (p.1 == k) = false := by simpa using hp
    simp only [List.cons_append, List.find?, hb]
    exact ih hc2

theorem lookupKV_setKV (kv : KV) (k v : String) :
    lookupKV (setKV kv k v) k = some v := by
  unfold setKV lookupKV
  split
  · rename_i hc
    rw [find_replaced k v kv hc]
    rfl
  · rename_i hc
    rw [find_appended k v kv hc]
    rfl

theorem hasKey_setKV (kv : KV) (k v : String) :
    hasKey (setKV kv k v) k = true := by
  rw [hasKey, lookupKV_setKV]; rfl

theorem find_replaced_ne (k k2 v : String) (h : k ≠ k2) :
    ∀ t : List (String × String),
      (t.map (fun p => if p.1 = k then (k, v) else p)).find?
        (fun p => p.1 == k2) = t.find? (fun p => p.1 == k2) := by
  intro t
  induction t with
  | nil => rfl
  | cons p t ih =>
    by_cases hp : p.1 = k
    · have hb1 : ((k, v).1 == k2) = false := by simpa using h
      have hb2 : (p.1 == k2) = false := by
        simp only [hp]; simpa using h
      simp only [List.map_cons, List.find?, if_pos hp, hb1, hb2]
      exact ih
    · simp only [List.map_cons, List.find?, if_neg hp]
      cases hb : (p.1 == k2) with
      | true => rfl
      | false => exact ih

theorem find_appended_ne (k k2 v : String) (h : k ≠ k2) :
    ∀ t : List (String × String),
      (t ++ [(k, v)]).find? (fun p => p.1 == k2) = t.find? (fun p => p.1 == k2) := by
  intro t
  induction t with
  | nil =>
    have hb : (k == k2) = false := by simpa using h
    simp [List.find?, hb]
  | cons p t ih =>
    simp only [List.cons_append, List.find?]
    cases hb : (p.1 == k2) with
    | true => rfl
    | false => exact ih

theorem lookupKV_setKV_ne (kv : KV) (k k2 v : String) (h : k ≠ k2) :
    lookupKV (setKV kv k v) k2 = lookupKV kv k2 := by
  unfold setKV lookupKV
  split
  · rw [find_replaced_ne k k2 v h kv]
  · rw [find_appended_ne k k2 v h kv]

theorem hasKey_setKV_ne (kv : KV) (k k2 v : String) (h : k ≠ k2) :
    hasKey (setKV kv k v) k2 = hasKey kv k2 := by
  rw [hasKey, hasKey, lookupKV_setKV_ne kv k k2 v h]

/-- C9: every collection appended by `extract_collections` has at
least one non-empty bureau dict: `parse_collection` returns `None`
both when no agency name is found and when no key-value pattern
matched for any bureau, and `extract_collections` appends only
non-`None` parses. -/
theorem C9_nonempty_collection (secs : List (List String)) (c : Collection)
    (h : c ∈ extract_collections secs) :
    c.fields Bureau.transunion ≠ [] ∨ c.fields Bureau.experian ≠ [] ∨
      c.fields Bureau.equifax ≠ [] := by
  unfold extract_collections at h
  rw [List.mem_filterMap] at h
  obtain ⟨s, _, hp⟩ := h
  unfold parse_collection at hp
  cases hag : agencyOf s with
  | none => rw [hag] at hp; exact absurd hp (by simp)
  | some ag =>
    rw [hag] at hp
    simp only [Option.some.injEq] at hp
    split at hp
    · rename_i hd
      cases hp
      have hd2 := hd
      simp only [hasData, Bool.or_eq_true, Bool.not_eq_true',
        List.isEmpty_eq_false] at hd2
      tauto
    · exact absurd hp (by simp)

/-- C1 (amended): the fan-out policy of account and collection
parsing: with 3 or more values, value `i` is assigned to bureau `i` in
the fixed order (transunion, experian, equifax) and extra values are
ignored; with exactly 1 value it is broadcast to all three bureaus;
with 0 or 2 values every bureau is left unset.  (The claim as stated
says token counts other than 3 and 1 leave the bureaus unset; the code
uses `len >= 3`.) -/
theorem C1_fanout_amended (acc : Bureau → KV) (key : String)
    (values : List String) :
    (3 ≤ values.length →
      ∀ b, assignField acc key values b =
        setKV (acc b) key (clean_value (trimS (values.getD (bIdx b) ""))))
    ∧ (values.length = 1 →
      ∀ b, assignField acc key values b =
        setKV (acc b) key (clean_value (trimS (values.getD 0 ""))))
    ∧ (values.length = 0 ∨ values.length = 2 →
      assignField acc key values = acc)
    ∧ (3 ≤ values.length →
      ∀ b, assignFieldC acc key values b =
        setKV (acc b) key (clean_value (values.getD (bIdx b) "")))
    ∧ (values.length = 1 →
      ∀ b, assignFieldC acc key values b =
        setKV (acc b) key (clean_value (values.getD 0 "")))
    ∧ (values.length = 0 ∨ values.length = 2 →
      assignFieldC acc key values = acc) := by
  refine ⟨?_, ?_, ?_, ?_, ?_, ?_⟩
  · intro hlen b
    have g0 : (0 : Nat) < values.length := by omega
    have g1 : (1 : Nat) < values.length := by omega
    have g2 : (2 : Nat) < values.length := by omega
    simp only [assignField, if_pos hlen, List.foldl, if_pos g0, if_pos g1, if_pos g2]
    cases b <;> simp [bIdx]
  · intro hlen b
    have hn3 : ¬ 3 ≤ values.length := by omega
    simp only [assignField, if_neg hn3, if_pos hlen, List.foldl]
    cases b <;> simp
  · intro hlen
    have hn3 : ¬ 3 ≤ values.length := by omega
    have hn1 : ¬ values.length = 1 := by omega
    simp only [assignField, if_neg hn3, if_neg hn1]
  · intro hlen b
    have g0 : (0 : Nat) < values.length := by omega
    have g1 : (1 : Nat) < values.length := by omega
    have g2 : (2 : Nat) < values.length := by omega
    simp only [assignFieldC, if_pos hlen, List.foldl, if_pos g0, if_pos g1, if_pos g2]
    cases b <;> simp [bIdx]
  · intro hlen b
    have hn3 : ¬ 3 ≤ values.length := by omega
    simp only [assignFieldC, if_neg hn3, if_pos hlen, List.foldl]
    cases b <;> simp
  · intro hlen
    have hn3 : ¬ 3 ≤ values.length := by omega
    have hn1 : ¬ values.length = 1 := by omega
    simp only [assignFieldC, if_neg hn3, if_neg hn1]

/-- C1 witness: the amended fan-out theorem at concrete inputs
(three tokens, one token, two matches). -/
theorem C1_fanout_witness :
    assignField (fun _ => kvEmpty) "balance_owed" ["1", "2", "3"] Bureau.experian =
      setKV kvEmpty "balance_owed" (clean_value (trimS "2")) ∧
    assignField (fun _ => kvEmpty) "balance_owed" ["7"] Bureau.equifax =
      setKV kvEmpty "balance_owed" (clean_value (trimS "7")) ∧
    assignFieldC (fun _ => kvEmpty) "high_balance" ["5", "6"] = (fun _ => kvEmpty) :=
  ⟨(C1_fanout_amended (fun _ => kvEmpty) "balance_owed" ["1", "2", "3"]).1
      (by decide) Bureau.experian,
   (C1_fanout_amended (fun _ => kvEmpty) "balance_owed" ["7"]).2.1
      (by decide) Bureau.equifax,
   (C1_fanout_amended (fun _ => kvEmpty) "high_balance" ["5", "6"]).2.2.2.2.2
      (Or.inr (by decide))⟩

/-- C9 witness: the invariant theorem applied to the one collection
parsed from a concrete section. -/
theorem C9_nonempty_collection_witness :
    collection0.fields Bureau.transunion ≠ [] ∨
    collection0.fields Bureau.experian ≠ [] ∨
    collection0.fields Bureau.equifax ≠ [] :=
  C9_nonempty_collection [sampleSection] collection0 (List.Mem.head _)

theorem foldl_range_set {α β : Type} (f : α → β) (d : α) :
    ∀ (t : List α) (off : Nat) (base : List β),
      off + t.length ≤ base.length →
      (List.range t.length).foldl (fun acc i => acc.set (off + i) (f (t.getD i d))) base
      = base.take off ++ t.map f ++ base.drop (off + t.length) := by
  intro t
  induction t with
  | nil =>
    intro off base h
    simp only [List.length_nil, List.range_zero, List.foldl_nil, List.map_nil,
      List.append_nil, Nat.add_zero]
    exact (List.take_append_drop off base).symm
  | cons a t ih =>
    intro off base h
    have hofflt : off < base.length := by
      simp only [List.length_cons] at h; omega
    rw [List.length_cons, List.range_succ_eq_map, List.foldl_cons, List.foldl_map]
    have hstep : base.set (off + 0) (f ((a :: t).getD 0 d)) = base.set off (f a) := by
      simp [List.getD]
    rw [hstep]
    have hfun : (fun (acc : List β) (i : Nat) =>
        acc.set (off + i.succ) (f ((a :: t).getD i.succ d))) =
        (fun (acc : List β) (i : Nat) => acc.set ((off + 1) + i) (f (t.getD i d))) := by
      funext acc i
      have h1 : off + i.succ = (off + 1) + i := by omega
      have h2 : (a :: t).getD i.succ d = t.getD i d := by simp [List.getD]
      rw [h1, h2]
    rw [hfun]
    have hlen2 : (off + 1) + t.length ≤ (base.set off (f a)).length := by
      simp only [List.length_set]
      simp only [List.length_cons] at h; omega
    rw [ih (off + 1) (base.set off (f a)) hlen2]
    rw [List.set_eq_take_cons_drop (f a) hofflt]
    have hlt : (base.take off).length = off := by
      simp [List.length_take]; omega
    have e1 : (base.take off ++ f a :: base.drop (off + 1)).take (off + 1) =
        base.take off ++ [f a] := by
      rw [show off + 1 = (base.take off).length + 1 by rw [hlt], List.take_append]
      simp
    have e2 : (base.take off ++ f a :: base.drop (off + 1)).drop ((off + 1) + t.length) =
        base.drop (off + (t.length + 1)) := by
      rw [show (off + 1) + t.length = (base.take off).length + (1 + t.length) by
        rw [hlt]; omega, List.drop_append]
      rw [show 1 + t.length = t.length + 1 by omega]
      simp only [List.drop_succ_cons]
      rw [List.drop_drop]
      congr 1
      omega
    rw [e1, e2]
    simp [List.append_assoc]

theorem finalizeMonths_eq (l : List String) :
    finalizeMonths l =
      List.replicate (24 - (l.drop (l.length - 24)).length) "" ++
        (l.drop (l.length - 24)).map stripApos := by
  unfold finalizeMonths
  have hk : (l.drop (l.length - 24)).length ≤ 24 := by
    simp only [List.length_drop]; omega
  rw [foldl_range_set stripApos "" (l.drop (l.length - 24))
    (24 - (l.drop (l.length - 24)).length) (List.replicate 24 "")
    (by simp only [List.length_replicate]; omega)]
  rw [List.take_replicate, List.drop_replicate]
  rw [show min (24 - (l.drop (l.length - 24)).length) 24 =
    24 - (l.drop (l.length - 24)).length by omega]
  rw [show 24 - ((24 - (l.drop (l.length - 24)).length) +
    (l.drop (l.length - 24)).length) = 0 by omega]
  simp

theorem foldl_range_set_id {α : Type} (d : α) (t : List α) (off : Nat)
    (base : List α) (h : off + t.length ≤ base.length) :
    (List.range t.length).foldl (fun acc i => acc.set (off + i) (t.getD i d)) base
      = base.take off ++ t ++ base.drop (off + t.length) := by
  have := foldl_range_set (fun s => s) d t off base h
  simpa using this

theorem finalizeStatuses_eq (l : List String) :
    finalizeStatuses l =
      List.replicate (24 - (l.drop (l.length - 24)).length) "NO DATA" ++
        l.drop (l.length - 24) := by
  unfold finalizeStatuses
  have hk : (l.drop (l.length - 24)).length ≤ 24 := by
    simp only [List.length_drop]; omega
  rw [foldl_range_set_id "NO DATA" (l.drop (l.length - 24))
    (24 - (l.drop (l.length - 24)).length) (List.replicate 24 "NO DATA")
    (by simp only [List.length_replicate]; omega)]
  rw [List.take_replicate, List.drop_replicate]
  rw [show min (24 - (l.drop (l.length - 24)).length) 24 =
    24 - (l.drop (l.length - 24)).length by omega]
  rw [show 24 - ((24 - (l.drop (l.length - 24)).length) +
    (l.drop (l.length - 24)).length) = 0 by omega]
  simp

/-- C2 (amended): whenever a bureau's accumulated status buffer does
not carry the `NONE REPORTED` sentinel, finalisation stores two
24-slot grids: the months grid is the last at most 24 extracted month
tokens, right-aligned with apostrophes removed (the `'YY` shorthand is
stored as bare `YY`), with every unfilled leading slot the empty
string; the statuses grid is the last at most 24 extracted status
tokens right-aligned with every unfilled leading slot `NO DATA`.  A
months/statuses length mismatch is absorbed by this padding, never
raised. -/
theorem C2_grid_amended (ms ss : List String)
    (h : (!ss.isEmpty && ss.contains "NONE REPORTED") = false) :
    finalizeBureau ms ss =
      ⟨Val.list (List.replicate (24 - (ms.drop (ms.length - 24)).length) "" ++
          (ms.drop (ms.length - 24)).map stripApos),
       Val.list (List.replicate (24 - (ss.drop (ss.length - 24)).length) "NO DATA" ++
          ss.drop (ss.length - 24))⟩ ∧
    (finalizeMonths ms).length = 24 ∧
    (finalizeStatuses ss).length = 24 ∧
    (ms.drop (ms.length - 24)).length ≤ 24 ∧
    (ss.drop (ss.length - 24)).length ≤ 24 := by
  have hm : (ms.drop (ms.length - 24)).length ≤ 24 := by
    simp only [List.length_drop]; omega
  have hs : (ss.drop (ss.length - 24)).length ≤ 24 := by
    simp only [List.length_drop]; omega
  refine ⟨?_, ?_, ?_, hm, hs⟩
  · unfold finalizeBureau
    rw [h]
    simp only [Bool.false_eq_true, if_false]
    rw [finalizeMonths_eq, finalizeStatuses_eq]
  · rw [finalizeMonths_eq]
    simp only [List.length_append, List.length_replicate, List.length_map]
    omega
  · rw [finalizeStatuses_eq]
    simp only [List.length_append, List.length_replicate]
    omega

/-- C2 witness: the grid theorem at a one-month, one-status buffer. -/
theorem C2_grid_witness :
    finalizeBureau ["JAN"] ["OK"] =
      ⟨Val.list (List.replicate 23 "" ++ ["JAN"]),
       Val.list (List.replicate 23 "NO DATA" ++ ["OK"])⟩ ∧
    (finalizeMonths ["JAN"]).length = 24 ∧
    (finalizeStatuses ["OK"]).length = 24 ∧
    ((["JAN"] : List String).drop (["JAN"].length - 24)).length ≤ 24 ∧
    ((["OK"] : List String).drop (["OK"].length - 24)).length ≤ 24 :=
  C2_grid_amended ["JAN"] ["OK"] (by decide)

/-- C3 (amended): while accumulating history for bureau `b`, a line
containing a none-reported or no-history phrase (and hitting neither
the section break nor a bureau header) immediately replaces `b`'s
status buffer by the sentinel token, replaces `b`'s month buffer by
the empty list, resets the bureau cursor, and leaves the buffers of
the other two bureaus untouched by that line; finalisation then stores
`{"months": [], "statuses": "NONE REPORTED"}` for `b` — the literal
sentinel replaces the statuses, while the months become the empty
sequence rather than the sentinel. -/
theorem C3_sentinel_amended (st : PHState) (raw : String) (b : Bureau)
    (hstop : st.stopped = false) (hcur : st.cur = some b)
    (hbrk : (sectionKw (lowerS (trimS raw)) &&
      !(!(monthFindall (trimS raw)).isEmpty ||
        !(statusFindall (trimS raw)).isEmpty)) = false)
    (hdet : bureauDetect (lowerS (trimS raw)) = none)
    (hnr : (hasSub "none reported" (lowerS (trimS raw)) ||
      hasSub "no history" (lowerS (trimS raw))) = true) :
    (phStep st raw).statuses b = ["NONE REPORTED"] ∧
    (phStep st raw).months b = [] ∧
    (phStep st raw).cur = none ∧
    (∀ b2, b2 ≠ b → (phStep st raw).statuses b2 = st.statuses b2 ∧
      (phStep st raw).months b2 = st.months b2) ∧
    finalizeBureau ((phStep st raw).months b) ((phStep st raw).statuses b) =
      ⟨Val.list [], Val.str "NONE REPORTED"⟩ := by
  have hstep : phStep st raw = { st with
      months := fun b2 => if b2 = b then [] else st.months b2,
      statuses := fun b2 => if b2 = b then ["NONE REPORTED"] else st.statuses b2,
      cur := none } := by
    simp only [phStep, hstop, hbrk, hdet, hcur, hnr]
    simp
  rw [hstep]
  refine ⟨by simp, by simp, rfl, ?_, by simp; decide⟩
  intro b2 hb2
  simp [if_neg hb2]

/-- C3 witness: the sentinel step theorem at the concrete line
`NONE REPORTED` with the cursor on TransUnion. -/
theorem C3_sentinel_witness :
    (phStep phSt0 "NONE REPORTED").statuses Bureau.transunion = ["NONE REPORTED"] ∧
    (phStep phSt0 "NONE REPORTED").months Bureau.transunion = [] ∧
    (phStep phSt0 "NONE REPORTED").cur = none ∧
    (∀ b2, b2 ≠ Bureau.transunion →
      (phStep phSt0 "NONE REPORTED").statuses b2 = phSt0.statuses b2 ∧
      (phStep phSt0 "NONE REPORTED").months b2 = phSt0.months b2) ∧
    finalizeBureau ((phStep phSt0 "NONE REPORTED").months Bureau.transunion)
        ((phStep phSt0 "NONE REPORTED").statuses Bureau.transunion) =
      ⟨Val.list [], Val.str "NONE REPORTED"⟩ :=
  C3_sentinel_amended phSt0 "NONE REPORTED" Bureau.transunion rfl rfl
    (by decide) (by decide) (by decide)

theorem hasKey_applyPat_ne (s : Bureau → KV) (key : String)
    (mo : Option (String × String × String)) (b : Bureau)
    (h : key ≠ "inquiries_2y") :
    hasKey (applyPat s key mo b) "inquiries_2y" = hasKey (s b) "inquiries_2y" := by
  cases mo with
  | none => rfl
  | some t => exact hasKey_setKV_ne (s b) key "inquiries_2y" (pick3 t b) h

theorem summaryBase_no_inq (m : SummaryMatches) (b : Bureau) :
    hasKey (summaryBase m b) "inquiries_2y" = false := by
  unfold summaryBase
  rw [hasKey_applyPat_ne _ _ _ _ (by decide), hasKey_applyPat_ne _ _ _ _ (by decide),
    hasKey_applyPat_ne _ _ _ _ (by decide), hasKey_applyPat_ne _ _ _ _ (by decide),
    hasKey_applyPat_ne _ _ _ _ (by decide), hasKey_applyPat_ne _ _ _ _ (by decide),
    hasKey_applyPat_ne _ _ _ _ (by decide), hasKey_applyPat_ne _ _ _ _ (by decide),
    hasKey_applyPat_ne _ _ _ _ (by decide)]
  rfl

theorem summaryMain_char (m : SummaryMatches) (b : Bureau) :
    hasKey (summaryMain m b) "inquiries_2y" =
      (m.inquiries_2y.isSome || m.inquiries_alt.isSome) := by
  unfold summaryMain
  cases halt : m.inquiries_alt with
  | none =>
    simp only [applyAltPat, Option.isSome_none, Bool.or_false]
    cases h2 : m.inquiries_2y with
    | none =>
      simp only [applyPat, Option.isSome_none]
      exact summaryBase_no_inq m b
    | some t =>
      simp only [applyPat, Option.isSome_some]
      exact hasKey_setKV _ _ _
  | some t =>
    simp only [applyAltPat, Option.isSome_some, Bool.or_true]
    by_cases hk : hasKey (applyPat (summaryBase m) "inquiries_2y" m.inquiries_2y b)
        "inquiries_2y" = true
    · rw [if_neg (by rw [hk]; simp)]
      rw [hasKey_setKV_ne _ _ _ _ (by decide)]
      exact hk
    · rw [if_pos (by simp [Bool.not_eq_true] at hk; rw [hk]; rfl)]
      exact hasKey_setKV _ _ _

theorem extract_summary_char (m : SummaryMatches) (b : Bureau) :
    hasKey (extract_summary m b) "inquiries_2y" =
      (m.inquiries_2y.isSome || m.inquiries_alt.isSome ||
        m.alt1.isSome || m.alt2.isSome) := by
  unfold extract_summary
  have hany : (bureausL.any (fun b0 => hasKey (summaryMain m b0) "inquiries_2y")) =
      (m.inquiries_2y.isSome || m.inquiries_alt.isSome) := by
    simp [bureausL, List.any_cons, summaryMain_char]
  rw [hany]
  cases hc : (m.inquiries_2y.isSome || m.inquiries_alt.isSome) with
  | true =>
    simp only [Bool.not_true, Bool.false_eq_true, if_false]
    rw [summaryMain_char, hc]
    simp
  | false =>
    simp only [Bool.not_false, if_true]
    cases h1 : m.alt1 with
    | some t =>
      simp only [Option.isSome_some]
      rw [hasKey_setKV]
      simp
    | none =>
      cases h2 : m.alt2 with
      | some t =>
        simp only [Option.isSome_none, Option.isSome_some]
        rw [hasKey_setKV]
        simp
      | none =>
        simp only [Option.isSome_none]
        rw [summaryMain_char, hc]
        simp

/-- C10: after a successful `parse_credit_report`, every bureau's
summary contains the `inquiries_2y` key: `extract_summary` fills it
for all three bureaus or for none, and in the latter case
`update_inquiry_counts` unconditionally stores a value for every
bureau (per-bureau tallies, the stored summary counts, or the total
count). -/
theorem C10_inquiries_present (lines : List String) (page : Option Page)
    (km : KMeansFn) (sm : SummaryMatches) (accT collT : List (List String))
    (inqs : List Inquiry) (sd : Option (Nat × Nat × Nat)) (rep : Report)
    (h : parse_credit_report lines page km sm accT collT inqs sd = Except.ok rep) :
    ∀ b, hasKey (rep.summary b) "inquiries_2y" = true := by
  have hsum : rep.summary = update_inquiry_counts (extract_summary sm) inqs sd := by
    unfold parse_credit_report at h
    cases hpi : extract_personal_info lines page km with
    | error e =>
      rw [hpi] at h
      exact Except.noConfusion h
    | ok pi =>
      rw [hpi] at h
      have h2 : (Except.ok
          (⟨pi, update_inquiry_counts (extract_summary sm) inqs sd,
            accT.map parse_account, extract_collections collT, inqs⟩ : Report) :
          Except String Report) = Except.ok rep := h
      injection h2 with h3
      rw [← h3]
  intro b
  rw [hsum]
  unfold update_inquiry_counts
  split
  · rename_i hany
    rcases List.any_eq_true.mp hany with ⟨b0, _, hb0⟩
    rw [extract_summary_char] at hb0
    rw [extract_summary_char]
    exact hb0
  · repeat' split
    all_goals exact hasKey_setKV _ _ _

/-- C10 witness: the invariant at a concrete minimal parse. -/
theorem C10_inquiries_present_witness :
    hasKey (report0.summary Bureau.experian) "inquiries_2y" = true :=
  C10_inquiries_present [] (some []) (fun _ => []) smNone [] [] [] none report0
    rfl Bureau.experian

theorem dchar_digit (d : Nat) (h : d < 10) : isDigitC (dchar d) = true := by
  interval_cases d <;> decide

theorem dchar_toNat (d : Nat) (h : d < 10) : (dchar d).toNat = 48 + d := by
  interval_cases d <;> decide

theorem digitsValL_append_digit (cs : List Char) (c : Char) :
    digitsValL (cs ++ [c]) = 10 * digitsValL cs + (c.toNat - 48) := by
  simp [digitsValL, List.foldl_append, Nat.mul_comm]

theorem natCharsF_digits : ∀ f n, allDigits (natCharsF f n) = true := by
  intro f
  induction f with
  | zero => intro n; rfl
  | succ f ih =>
    intro n
    unfold natCharsF
    by_cases h : n < 10
    · simp only [if_pos h, allDigits, List.all_cons, List.all_nil, Bool.and_true]
      exact dchar_digit n h
    · rw [if_neg h]
      have h1 := ih (n / 10)
      have h2 := dchar_digit (n % 10) (Nat.mod_lt n (by omega))
      simp only [allDigits, List.all_append, List.all_cons, List.all_nil,
        Bool.and_true] at h1 ⊢
      rw [Bool.and_eq_true]
      exact ⟨h1, h2⟩

theorem natCharsF_val : ∀ f n, n < 10 ^ f → digitsValL (natCharsF f n) = n := by
  intro f
  induction f with
  | zero =>
    intro n h
    have hn0 : n = 0 := by simpa using h
    subst hn0
    rfl
  | succ f ih =>
    intro n h
    unfold natCharsF
    by_cases h10 : n < 10
    · simp only [if_pos h10]
      simp [digitsValL, dchar_toNat n h10]
    · simp only [if_neg h10]
      rw [digitsValL_append_digit]
      have hdiv : n / 10 < 10 ^ f := by
        rw [pow_succ'] at h
        exact Nat.div_lt_of_lt_mul h
      rw [ih (n / 10) hdiv, dchar_toNat (n % 10) (Nat.mod_lt n (by omega))]
      omega

theorem n_lt_pow10 (n : Nat) : n < 10 ^ (n + 1) := by
  calc n < n + 1 := by omega
  _ ≤ 10 ^ (n + 1) := by
    induction n with
    | zero => simp
    | succ k ih => rw [pow_succ]; omega

theorem natChars_val (n : Nat) : digitsValL (natChars n) = n :=
  natCharsF_val (n + 1) n (n_lt_pow10 n)

theorem natCharsF_len_le : ∀ f n, n < 10 ^ f → (natCharsF f n).length ≤ f := by
  intro f
  induction f with
  | zero =>
    intro n h
    have hn : n = 0 := by simpa using h
    subst hn
    simp [natCharsF]
  | succ f ih =>
    intro n h
    unfold natCharsF
    by_cases h10 : n < 10
    · simp [if_pos h10]
    · simp only [if_neg h10, List.length_append, List.length_cons, List.length_nil]
      have hdiv : n / 10 < 10 ^ f := by
        rw [pow_succ'] at h
        exact Nat.div_lt_of_lt_mul h
      have := ih (n / 10) hdiv
      omega

theorem natCharsF_len_ge : ∀ f n k, 10 ^ k ≤ n → n < 10 ^ f → k < f →
    k + 1 ≤ (natCharsF f n).length := by
  intro f
  induction f with
  | zero => intro n k _ _ hk; omega
  | succ f ih =>
    intro n k hk hn hkf
    unfold natCharsF
    by_cases h10 : n < 10
    · have : k = 0 := by
        by_contra hne
        have : 10 ≤ 10 ^ k := by
          calc (10 : Nat) = 10 ^ 1 := by norm_num
          _ ≤ 10 ^ k := Nat.pow_le_pow_right (by omega) (by omega)
        omega
      rw [if_pos h10]
      simp [this]
    · simp only [if_neg h10, List.length_append, List.length_cons, List.length_nil]
      rcases Nat.eq_zero_or_pos k with hk0 | hkpos
      · omega
      · have hdiv : n / 10 < 10 ^ f := by
          rw [pow_succ'] at hn
          exact Nat.div_lt_of_lt_mul hn
        have hge : 10 ^ (k - 1) ≤ n / 10 := by
          rw [Nat.le_div_iff_mul_le (by omega : 0 < 10)]
          have hpow : 10 ^ (k - 1) * 10 = 10 ^ k := by
            rw [← pow_succ]
            congr 1
            omega
          rw [hpow]
          exact hk
        have := ih (n / 10) (k - 1) hge hdiv (by omega)
        omega

theorem natCharsF_pos (f n : Nat) (h : 0 < f) :
    natCharsF f n =
      if n < 10 then [dchar n] else natCharsF (f - 1) (n / 10) ++ [dchar (n % 10)] := by
  cases f with
  | zero => omega
  | succ f => rfl

theorem natCharsF_ne_nil (f n : Nat) (h : 0 < f) : natCharsF f n ≠ [] := by
  rw [natCharsF_pos f n h]
  by_cases h10 : n < 10
  · simp [h10]
  · simp [h10]

theorem natCharsF_fuel : ∀ f f2 n, 0 < f → n < 10 ^ f → 0 < f2 → n < 10 ^ f2 →
    natCharsF f n = natCharsF f2 n := by
  intro f
  induction f with
  | zero => intro f2 n h; omega
  | succ f ih =>
    intro f2 n _ hn hf2 hn2
    cases f2 with
    | zero => omega
    | succ f2 =>
      show natCharsF (f + 1) n = natCharsF (f2 + 1) n
      unfold natCharsF
      by_cases h10 : n < 10
      · simp [h10]
      · simp only [if_neg h10]
        congr 1
        have hf : 0 < f := by
          by_contra hc
          have : f = 0 := by omega
          subst this
          simp at hn
          omega
        have hf2p : 0 < f2 := by
          by_contra hc
          have : f2 = 0 := by omega
          subst this
          simp at hn2
          omega
        have hd1 : n / 10 < 10 ^ f := by
          rw [pow_succ'] at hn
          exact Nat.div_lt_of_lt_mul hn
        have hd2 : n / 10 < 10 ^ f2 := by
          rw [pow_succ'] at hn2
          exact Nat.div_lt_of_lt_mul hn2
        exact ih f2 (n / 10) hf hd1 hf2p hd2

theorem natChars_fuel (n k : Nat) (hk : 0 < k) (h : n < 10 ^ k) :
    natChars n = natCharsF k n :=
  natCharsF_fuel (n + 1) k n (by omega) (n_lt_pow10 n) hk h

theorem natChars_len_le (n k : Nat) (hk : 0 < k) (h : n < 10 ^ k) :
    (natChars n).length ≤ k := by
  rw [natChars_fuel n k hk h]
  exact natCharsF_len_le k n h

theorem k_lt_pow10 (k : Nat) : k < 10 ^ k := by
  induction k with
  | zero => simp
  | succ k ih => rw [pow_succ]; omega

theorem natChars_len_ge (n k : Nat) (h : 10 ^ k ≤ n) :
    k + 1 ≤ (natChars n).length := by
  have hkn : k < n + 1 := by
    have := k_lt_pow10 k
    omega
  exact natCharsF_len_ge (n + 1) n k h (n_lt_pow10 n) hkn

theorem natChars_len1 (n : Nat) (h : n < 10) : (natChars n).length = 1 := by
  have hle := natChars_len_le n 1 (by omega) (by simpa using h)
  have : natChars n ≠ [] := natCharsF_ne_nil (n + 1) n (by omega)
  have : 1 ≤ (natChars n).length := by
    cases hc : natChars n with
    | nil => exact absurd hc this
    | cons a t => simp
  omega

theorem natChars_digits (n : Nat) : allDigits (natChars n) = true :=
  natCharsF_digits (n + 1) n

theorem zero_digit : isDigitC '0' = true := by decide

theorem pad2_digits (n : Nat) : allDigits (pad2 n).data = true := by
  unfold pad2
  by_cases h : n < 10
  · simp only [if_pos h]
    show allDigits ('0' :: natChars n) = true
    have := natChars_digits n
    simp only [allDigits, List.all_cons] at *
    simp [this, zero_digit]
  · simp only [if_neg h]
    exact natChars_digits n

theorem pad4_digits (n : Nat) : allDigits (pad4 n).data = true := by
  unfold pad4
  have hd := natChars_digits n
  by_cases h1 : n < 10
  · simp only [if_pos h1]
    show allDigits ('0' :: '0' :: '0' :: natChars n) = true
    simp only [allDigits, List.all_cons] at *
    simp [hd, zero_digit]
  · simp only [if_neg h1]
    by_cases h2 : n < 100
    · simp only [if_pos h2]
      show allDigits ('0' :: '0' :: natChars n) = true
      simp only [allDigits, List.all_cons] at *
      simp [hd, zero_digit]
    · simp only [if_neg h2]
      by_cases h3 : n < 1000
      · simp only [if_pos h3]
        show allDigits ('0' :: natChars n) = true
        simp only [allDigits, List.all_cons] at *
        simp [hd, zero_digit]
      · simp only [if_neg h3]
        exact hd

theorem pad2_len (n : Nat) (h : n < 100) : (pad2 n).data.length = 2 := by
  unfold pad2
  by_cases h10 : n < 10
  · simp only [if_pos h10]
    show ('0' :: natChars n).length = 2
    simp [natChars_len1 n h10]
  · simp only [if_neg h10]
    show (natChars n).length = 2
    have hle := natChars_len_le n 2 (by omega) (by norm_num; omega)
    have hge := natChars_len_ge n 1 (by norm_num; omega)
    omega

theorem pad4_len (n : Nat) (h : n < 10000) : (pad4 n).data.length = 4 := by
  unfold pad4
  by_cases h1 : n < 10
  · simp only [if_pos h1]
    show ('0' :: '0' :: '0' :: natChars n).length = 4
    simp [natChars_len1 n h1]
  · simp only [if_neg h1]
    by_cases h2 : n < 100
    · simp only [if_pos h2]
      show ('0' :: '0' :: natChars n).length = 4
      have hle := natChars_len_le n 2 (by omega) (by norm_num; omega)
      have hge := natChars_len_ge n 1 (by norm_num; omega)
      simp only [List.length_cons]
      omega
    · simp only [if_neg h2]
      by_cases h3 : n < 1000
      · simp only [if_pos h3]
        show ('0' :: natChars n).length = 4
        have hle := natChars_len_le n 3 (by omega) (by norm_num; omega)
        have hge := natChars_len_ge n 2 (by norm_num; omega)
        simp only [List.length_cons]
        omega
      · simp only [if_neg h3]
        show (natChars n).length = 4
        have hle := natChars_len_le n 4 (by omega) (by norm_num; omega)
        have hge := natChars_len_ge n 3 (by norm_num; omega)
        omega

theorem digitsValL_cons_zero (cs : List Char) :
    digitsValL ('0' :: cs) = digitsValL cs := rfl

theorem pad2_val (n : Nat) : digitsValL (pad2 n).data = n := by
  unfold pad2
  by_cases h : n < 10
  · simp only [if_pos h]
    show digitsValL ('0' :: natChars n) = n
    rw [digitsValL_cons_zero]
    exact natChars_val n
  · simp only [if_neg h]
    exact natChars_val n

theorem pad4_val (n : Nat) : digitsValL (pad4 n).data = n := by
  unfold pad4
  by_cases h1 : n < 10
  · simp only [if_pos h1]
    show digitsValL ('0' :: '0' :: '0' :: natChars n) = n
    rw [digitsValL_cons_zero, digitsValL_cons_zero, digitsValL_cons_zero]
    exact natChars_val n
  · simp only [if_neg h1]
    by_cases h2 : n < 100
    · simp only [if_pos h2]
      show digitsValL ('0' :: '0' :: natChars n) = n
      rw [digitsValL_cons_zero, digitsValL_cons_zero]
      exact natChars_val n
    · simp only [if_neg h2]
      by_cases h3 : n < 1000
      · simp only [if_pos h3]
        show digitsValL ('0' :: natChars n) = n
        rw [digitsValL_cons_zero]
        exact natChars_val n
      · simp only [if_neg h3]
        exact natChars_val n

theorem splitCharAux_nil (sep : Char) (acc : List Char) :
    splitCharAux sep [] acc = [acc.reverse] := rfl

theorem splitCharAux_cons (sep c : Char) (cs acc : List Char) :
    splitCharAux sep (c :: cs) acc =
      if c == sep then acc.reverse :: splitCharAux sep cs []
      else splitCharAux sep cs (c :: acc) := rfl

theorem splitCharAux_no_sep (sep : Char) :
    ∀ cs acc, ¬ sep ∈ cs → splitCharAux sep cs acc = [acc.reverse ++ cs] := by
  intro cs
  induction cs with
  | nil => intro acc _; simp [splitCharAux_nil]
  | cons c cs ih =>
    intro acc h
    have hc : ¬ (c == sep) = true := by
      simp only [beq_iff_eq]
      intro he
      exact h (by rw [he]; exact List.mem_cons_self _ _)
    rw [splitCharAux_cons, if_neg hc]
    rw [ih (c :: acc) (fun hm => h (List.mem_cons_of_mem c hm))]
    simp

theorem splitCharAux_sep (sep : Char) :
    ∀ A rest acc, ¬ sep ∈ A →
      splitCharAux sep (A ++ sep :: rest) acc =
        (acc.reverse ++ A) :: splitCharAux sep rest [] := by
  intro A
  induction A with
  | nil =>
    intro rest acc _
    show splitCharAux sep (sep :: rest) acc = _
    rw [splitCharAux_cons, if_pos (by simp)]
    simp
  | cons a A ih =>
    intro rest acc h
    have ha : ¬ (a == sep) = true := by
      simp only [beq_iff_eq]
      intro he
      exact h (by rw [he]; exact List.mem_cons_self _ _)
    show splitCharAux sep (a :: (A ++ sep :: rest)) acc = _
    rw [splitCharAux_cons, if_neg ha]
    rw [ih rest (a :: acc) (fun hm => h (List.mem_cons_of_mem a hm))]
    simp

theorem splitChar_three (A B C : List Char) (hA : ¬ '/' ∈ A) (hB : ¬ '/' ∈ B)
    (hC : ¬ '/' ∈ C) :
    splitChar '/' (A ++ '/' :: (B ++ '/' :: C)) = [A, B, C] := by
  unfold splitChar
  rw [splitCharAux_sep '/' A _ [] hA]
  rw [splitCharAux_sep '/' B _ [] hB]
  rw [splitCharAux_no_sep '/' C [] hC]
  simp

theorem no_slash_of_digits (cs : List Char) (h : allDigits cs = true) :
    ¬ '/' ∈ cs := by
  intro hm
  have := List.all_eq_true.mp h '/' hm
  simp [isDigitC] at this

theorem daysInMonth_le (m y : Nat) : daysInMonth m y ≤ 31 := by
  unfold daysInMonth
  split
  · split <;> omega
  · split <;> omega

theorem validDate_bounds (m d y : Nat) (h : validDate m d y = true) :
    1 ≤ m ∧ m ≤ 12 ∧ 1 ≤ d ∧ d ≤ 31 ∧ 1 ≤ y ∧ y ≤ 9999 := by
  have hdm := daysInMonth_le m y
  simp only [validDate, Bool.and_eq_true, decide_eq_true_eq] at h
  omega

theorem fmtDate_data (m d y : Nat) :
    (fmtDate m d y).data =
      (pad2 m).data ++ '/' :: ((pad2 d).data ++ '/' :: (pad4 y).data) := by
  unfold fmtDate
  simp

theorem tryDate_fmtDate (m d y : Nat) (h : validDate m d y = true) :
    tryDate (fmtDate m d y) = some (fmtDate m d y) := by
  obtain ⟨h1, h2, h3, h4, h5, h6⟩ := validDate_bounds m d y h
  have hsplit : splitChar '/' (fmtDate m d y).data =
      [(pad2 m).data, (pad2 d).data, (pad4 y).data] := by
    rw [fmtDate_data]
    exact splitChar_three _ _ _
      (no_slash_of_digits _ (pad2_digits m))
      (no_slash_of_digits _ (pad2_digits d))
      (no_slash_of_digits _ (pad4_digits y))
  unfold tryDate
  simp only [hsplit]
  have hlm : (pad2 m).data.length = 2 := pad2_len m (by omega)
  have hld : (pad2 d).data.length = 2 := pad2_len d (by omega)
  have hly : (pad4 y).data.length = 4 := pad4_len y (by omega)
  rw [if_pos (by simp [hlm, hld, pad2_digits])]
  rw [if_pos (by simp [hly, pad4_digits])]
  rw [pad2_val m, pad2_val d, pad4_val y]
  unfold mkDate
  rw [if_pos h]

theorem fmtDate_ne_sentinels (m d y : Nat) (h : validDate m d y = true) :
    fmtDate m d y ≠ "" ∧ fmtDate m d y ≠ "--" ∧ fmtDate m d y ≠ "N/A" := by
  obtain ⟨h1, h2, h3, h4, h5, h6⟩ := validDate_bounds m d y h
  have hlen : (fmtDate m d y).data.length = 10 := by
    rw [fmtDate_data]
    simp only [List.length_append, List.length_cons]
    rw [pad2_len m (by omega), pad2_len d (by omega), pad4_len y (by omega)]
  refine ⟨?_, ?_, ?_⟩ <;> intro he <;>
    rw [he] at hlen <;> simp at hlen

theorem digit_not_stripped (c : Char) (h : isDigitC c = true) :
    (!(c == '$' || c == ',')) = true := by
  simp only [isDigitC, Bool.and_eq_true, decide_eq_true_eq] at h
  simp only [Bool.not_eq_true', Bool.or_eq_false_iff, beq_eq_false_iff_ne, ne_eq]
  constructor
  · intro he
    have := congrArg Char.toNat he
    simp at this
    omega
  · intro he
    have := congrArg Char.toNat he
    simp at this
    omega

theorem slash_not_stripped : (!(('/' : Char) == '$' || ('/' : Char) == ',')) = true := by
  decide

theorem stripDC_fmtDate (m d y : Nat) : stripDC (fmtDate m d y) = fmtDate m d y := by
  unfold stripDC
  have hf : (fmtDate m d y).data.filter (fun c => !(c == '$' || c == ',')) =
      (fmtDate m d y).data := by
    apply List.filter_eq_self.mpr
    intro c hc
    rw [fmtDate_data] at hc
    rcases List.mem_append.mp hc with hc1 | hc2
    · exact digit_not_stripped c (List.all_eq_true.mp (pad2_digits m) c hc1)
    · rcases List.mem_cons.mp hc2 with hc3 | hc4
      · rw [hc3]; exact slash_not_stripped
      · rcases List.mem_append.mp hc4 with hc5 | hc6
        · exact digit_not_stripped c (List.all_eq_true.mp (pad2_digits d) c hc5)
        · rcases List.mem_cons.mp hc6 with hc7 | hc8
          · rw [hc7]; exact slash_not_stripped
          · exact digit_not_stripped c (List.all_eq_true.mp (pad4_digits y) c hc8)
  rw [hf]

theorem stripDC_idem (s : String) : stripDC (stripDC s) = stripDC s := by
  unfold stripDC
  congr 1
  apply List.filter_eq_self.mpr
  intro a ha
  have ha2 : a ∈ List.filter (fun c => !(c == '$' || c == ',')) s.data := by
    simpa using ha
  exact (List.mem_filter.mp ha2).2

theorem mkDate_inv (m d y : Nat) (out : String) (h : mkDate m d y = some out) :
    out = fmtDate m d y ∧ validDate m d y = true := by
  unfold mkDate at h
  split at h
  · rename_i hv
    cases h
    exact ⟨rfl, hv⟩
  · exact absurd h (by simp)

theorem monthNameDate_inv (cs : List Char) (out : String)
    (h : monthNameDate cs = some out) :
    ∃ m d y, out = fmtDate m d y ∧ validDate m d y = true := by
  unfold monthNameDate at h
  simp only [decide_eq_true_eq] at h
  split at h
  · exact absurd h (by simp)
  · split at h
    · exact absurd h (by simp)
    · split at h
      · exact absurd h (by simp)
      · split at h
        · split at h
          · split at h
            · rename_i m hm
              exact ⟨m, _, _, mkDate_inv _ _ _ _ h⟩
            · exact absurd h (by simp)
          · exact absurd h (by simp)
        · exact absurd h (by simp)

theorem tryDate_inv (s : String) (out : String) (h : tryDate s = some out) :
    ∃ m d y, out = fmtDate m d y ∧ validDate m d y = true := by
  unfold tryDate at h
  simp only [decide_eq_true_eq] at h
  split at h
  · rename_i ms ds ys
    split at h
    · split at h
      · exact ⟨_, _, _, mkDate_inv _ _ _ _ h⟩
      · split at h
        · exact ⟨_, _, _, mkDate_inv _ _ _ _ h⟩
        · exact absurd h (by simp)
    · exact absurd h (by simp)
  · exact monthNameDate_inv _ _ h
  · exact absurd h (by simp)

/-- C5 (amended): `clean_value` is idempotent on every input whose
cleaned value is not the literal `--` or `N/A`: the only failures of
`clean_value(clean_value(x)) == clean_value(x)` are inputs like `$--`
whose dollar/comma stripping resurrects one of the sentinel literals
checked before stripping. -/
theorem C5_idem_amended (x : String) (h1 : clean_value x ≠ "--")
    (h2 : clean_value x ≠ "N/A") :
    clean_value (clean_value x) = clean_value x := by
  by_cases hx : x = "" ∨ x = "--" ∨ x = "N/A"
  · have hcv : clean_value x = "" := by
      rcases hx with h | h | h <;> simp [clean_value, h]
    rw [hcv]
    decide
  · push_neg at hx
    obtain ⟨hx1, hx2, hx3⟩ := hx
    have hcond : (decide (x = "") || decide (x = "--") || decide (x = "N/A")) = false := by
      simp [hx1, hx2, hx3]
    cases htd : tryDate (stripDC x) with
    | none =>
      have hcv : clean_value x = stripDC x := by
        unfold clean_value
        rw [hcond]
        simp [htd]
      rw [hcv] at h1 h2 ⊢
      by_cases hz : stripDC x = ""
      · rw [hz]
        decide
      · have hcond2 : (decide (stripDC x = "") || decide (stripDC x = "--") ||
            decide (stripDC x = "N/A")) = false := by
          simp [hz, h1, h2]
        unfold clean_value
        rw [hcond2]
        simp only [Bool.false_eq_true, if_false]
        rw [stripDC_idem, htd]
    | some dt =>
      obtain ⟨m, d, y, rfl, hval⟩ := tryDate_inv _ _ htd
      have hcv : clean_value x = fmtDate m d y := by
        unfold clean_value
        rw [hcond]
        simp [htd]
      rw [hcv]
      obtain ⟨hne1, hne2, hne3⟩ := fmtDate_ne_sentinels m d y hval
      have hcond2 : (decide (fmtDate m d y = "") || decide (fmtDate m d y = "--") ||
          decide (fmtDate m d y = "N/A")) = false := by
        simp [hne1, hne2, hne3]
      unfold clean_value
      rw [hcond2]
      simp only [Bool.false_eq_true, if_false]
      rw [stripDC_fmtDate, tryDate_fmtDate m d y hval]

/-- C5 witness: the amended idempotence theorem at a date input. -/
theorem C5_idem_witness :
    clean_value (clean_value "03/5/24") = clean_value "03/5/24" :=
  C5_idem_amended "03/5/24" (by decide) (by decide)


theorem insPair_nil (a : Fin 3 × ℚ) : insPair a [] = [a] := rfl

theorem insPair_cons (a b : Fin 3 × ℚ) (t : List (Fin 3 × ℚ)) :
    insPair a (b :: t) = if b.2 ≤ a.2 then b :: insPair a t else a :: b :: t := rfl

theorem ctb_min (c : Fin 3 → ℚ) (j : Fin 3) (h : ∀ k, k ≠ j → c j < c k) :
    clusterToBureau c j = Bureau.transunion := by
  fin_cases j
  · have h1 : c 0 < c 1 := h 1 (by decide)
    have h2 : c 0 < c 2 := h 2 (by decide)
    rcases le_or_lt (c 2) (c 1) with h21 | h21
    · simp [clusterToBureau, sortedCenters, insPair_cons, insPair_nil, h21,
        not_le.mpr h2, List.getD]
    · simp [clusterToBureau, sortedCenters, insPair_cons, insPair_nil,
        not_le.mpr h21, not_le.mpr h1, List.getD]
  · have h0 : c 1 < c 0 := h 0 (by decide)
    have h2 : c 1 < c 2 := h 2 (by decide)
    simp [clusterToBureau, sortedCenters, insPair_cons, insPair_nil,
      not_le.mpr h2, le_of_lt h0, List.getD]
  · have h0 : c 2 < c 0 := h 0 (by decide)
    have h1 : c 2 < c 1 := h 1 (by decide)
    simp [clusterToBureau, sortedCenters, insPair_cons, insPair_nil,
      le_of_lt h1, le_of_lt h0, List.getD]

theorem ctb_max (c : Fin 3 → ℚ) (j : Fin 3) (h : ∀ k, k ≠ j → c k < c j) :
    clusterToBureau c j = Bureau.equifax := by
  fin_cases j
  · have h1 : c 1 < c 0 := h 1 (by decide)
    have h2 : c 2 < c 0 := h 2 (by decide)
    rcases le_or_lt (c 2) (c 1) with h21 | h21
    · simp [clusterToBureau, sortedCenters, insPair_cons, insPair_nil, h21,
        le_of_lt h2, le_of_lt h1, List.getD]
    · simp [clusterToBureau, sortedCenters, insPair_cons, insPair_nil,
        not_le.mpr h21, le_of_lt h1, le_of_lt h2, List.getD]
  · have h0 : c 0 < c 1 := h 0 (by decide)
    have h2 : c 2 < c 1 := h 2 (by decide)
    rcases le_or_lt (c 2) (c 0) with h20 | h20
    · simp [clusterToBureau, sortedCenters, insPair_cons, insPair_nil,
        le_of_lt h2, h20, not_le.mpr h0, List.getD]
    · simp [clusterToBureau, sortedCenters, insPair_cons, insPair_nil,
        le_of_lt h2, not_le.mpr h20, List.getD]
  · have h0 : c 0 < c 2 := h 0 (by decide)
    have h1 : c 1 < c 2 := h 1 (by decide)
    rcases le_or_lt (c 1) (c 0) with h10 | h10
    · simp [clusterToBureau, sortedCenters, insPair_cons, insPair_nil,
        not_le.mpr h1, h10, not_le.mpr h0, List.getD]
    · simp [clusterToBureau, sortedCenters, insPair_cons, insPair_nil,
        not_le.mpr h1, not_le.mpr h10, List.getD]

theorem ctb_mid (c : Fin 3 → ℚ) (j : Fin 3)
    (hlo : ∃ k, k ≠ j ∧ c k < c j) (hhi : ∃ k, k ≠ j ∧ c j < c k) :
    clusterToBureau c j = Bureau.experian := by
  fin_cases j
  · have hlo2 : c 1 < c 0 ∨ c 2 < c 0 := by
      rcases hlo with ⟨k, hk, hkl⟩
      fin_cases k
      · exact absurd rfl hk
      · exact Or.inl hkl
      · exact Or.inr hkl
    have hhi2 : c 0 < c 1 ∨ c 0 < c 2 := by
      rcases hhi with ⟨k, hk, hkl⟩
      fin_cases k
      · exact absurd rfl hk
      · exact Or.inl hkl
      · exact Or.inr hkl
    rcases hlo2 with hl | hl <;> rcases hhi2 with hh | hh
    · exact absurd (lt_trans hl hh) (lt_irrefl _)
    · simp [clusterToBureau, sortedCenters, insPair_cons, insPair_nil,
        not_le.mpr (lt_trans hl hh), le_of_lt hl, not_le.mpr hh, List.getD]
    · simp [clusterToBureau, sortedCenters, insPair_cons, insPair_nil,
        le_of_lt (lt_trans hl hh), le_of_lt hl, not_le.mpr hh, List.getD]
    · exact absurd (lt_trans hl hh) (lt_irrefl _)
  · have hlo2 : c 0 < c 1 ∨ c 2 < c 1 := by
      rcases hlo with ⟨k, hk, hkl⟩
      fin_cases k
      · exact Or.inl hkl
      · exact absurd rfl hk
      · exact Or.inr hkl
    have hhi2 : c 1 < c 0 ∨ c 1 < c 2 := by
      rcases hhi with ⟨k, hk, hkl⟩
      fin_cases k
      · exact Or.inl hkl
      · exact absurd rfl hk
      · exact Or.inr hkl
    rcases hlo2 with hl | hl <;> rcases hhi2 with hh | hh
    · exact absurd (lt_trans hl hh) (lt_irrefl _)
    · simp [clusterToBureau, sortedCenters, insPair_cons, insPair_nil,
        not_le.mpr hh, not_le.mpr hl, List.getD]
    · simp [clusterToBureau, sortedCenters, insPair_cons, insPair_nil,
        le_of_lt hl, le_of_lt (lt_trans hl hh), le_of_lt hh, List.getD]
    · exact absurd (lt_trans hl hh) (lt_irrefl _)
  · have hlo2 : c 0 < c 2 ∨ c 1 < c 2 := by
      rcases hlo with ⟨k, hk, hkl⟩
      fin_cases k
      · exact Or.inl hkl
      · exact Or.inr hkl
      · exact absurd rfl hk
    have hhi2 : c 2 < c 0 ∨ c 2 < c 1 := by
      rcases hhi with ⟨k, hk, hkl⟩
      fin_cases k
      · exact Or.inl hkl
      · exact Or.inr hkl
      · exact absurd rfl hk
    rcases hlo2 with hl | hl <;> rcases hhi2 with hh | hh
    · exact absurd (lt_trans hl hh) (lt_irrefl _)
    · simp [clusterToBureau, sortedCenters, insPair_cons, insPair_nil,
        le_of_lt hh, not_le.mpr hl, le_of_lt (lt_trans hl hh), List.getD]
    · simp [clusterToBureau, sortedCenters, insPair_cons, insPair_nil,
        not_le.mpr hl, le_of_lt (lt_trans hl hh), le_of_lt hh, List.getD]
    · exact absurd (lt_trans hl hh) (lt_irrefl _)

theorem clusterCenter_transport (pts pts2 : List (ℚ × Fin 3)) (τ : Fin 3 → Fin 3)
    (hinj : Function.Injective τ)
    (hperm : pts2.Perm (pts.map (fun q => (q.1, τ q.2)))) (j : Fin 3) :
    clusterCenter pts2 (τ j) = clusterCenter pts j := by
  unfold clusterCenter
  have hpf : (pts2.filter (fun q => q.2 = τ j)).Perm
      ((pts.filter (fun q => q.2 = j)).map (fun q => (q.1, τ q.2))) := by
    have h1 := hperm.filter (fun q => decide (q.2 = τ j))
    rw [List.filter_map] at h1
    have hcong : ((fun (q : ℚ × Fin 3) => decide (q.2 = τ j)) ∘
        (fun (q : ℚ × Fin 3) => (q.1, τ q.2))) =
        (fun (q : ℚ × Fin 3) => decide (q.2 = j)) := by
      funext q
      simp only [Function.comp]
      exact decide_eq_decide.mpr ⟨fun he => hinj he, fun he => congrArg τ he⟩
    rw [hcong] at h1
    exact h1
  have hsum : ((pts2.filter (fun q => q.2 = τ j)).map (·.1)).sum =
      ((pts.filter (fun q => q.2 = j)).map (·.1)).sum := by
    have h2 := (hpf.map (·.1)).sum_eq
    rw [List.map_map] at h2
    exact h2
  have hlen : (pts2.filter (fun q => q.2 = τ j)).length =
      (pts.filter (fun q => q.2 = j)).length := by
    rw [hpf.length_eq, List.length_map]
  simp only [hsum, hlen]

/-- C7: positional column clustering assigns bureaus by horizontal
position, not input order.  For clustered points (x-coordinate and
cluster label), the cluster whose converged centre (its mean x) is
smallest is assigned `transunion` (and symmetrically for the other
two), and the assignment is invariant under any permutation of the
input points combined with any bijective relabelling of the clusters:
the bureau attached to a cluster depends only on the rank of its mean
x-coordinate.  Distinct centres model the horizontally separated
groups of the claim. -/
theorem C7_cluster_invariance (pts pts2 : List (ℚ × Fin 3)) (τ : Fin 3 → Fin 3)
    (hτ : Function.Bijective τ)
    (hperm : pts2.Perm (pts.map (fun q => (q.1, τ q.2))))
    (hdist : ∀ j k : Fin 3, j ≠ k → clusterCenter pts j ≠ clusterCenter pts k) :
    (∀ j, clusterToBureau (clusterCenter pts2) (τ j) =
       clusterToBureau (clusterCenter pts) j) ∧
    (∀ j, (∀ k, k ≠ j → clusterCenter pts j < clusterCenter pts k) →
       clusterToBureau (clusterCenter pts) j = Bureau.transunion) := by
  have hc2 : ∀ j, clusterCenter pts2 (τ j) = clusterCenter pts j :=
    clusterCenter_transport pts pts2 τ hτ.1 hperm
  constructor
  · intro j
    by_cases hmin : ∀ k, k ≠ j → clusterCenter pts j < clusterCenter pts k
    · rw [ctb_min _ j hmin]
      apply ctb_min
      intro k hk
      obtain ⟨k2, rfl⟩ := hτ.2 k
      rw [hc2, hc2]
      exact hmin k2 (fun he => hk (congrArg τ he))
    · by_cases hmax : ∀ k, k ≠ j → clusterCenter pts k < clusterCenter pts j
      · rw [ctb_max _ j hmax]
        apply ctb_max
        intro k hk
        obtain ⟨k2, rfl⟩ := hτ.2 k
        rw [hc2, hc2]
        exact hmax k2 (fun he => hk (congrArg τ he))
      · push_neg at hmin hmax
        obtain ⟨ka, hka, hka2⟩ := hmin
        obtain ⟨kb, hkb, hkb2⟩ := hmax
        have hka3 : clusterCenter pts ka < clusterCenter pts j :=
          lt_of_le_of_ne hka2 (hdist ka j hka)
        have hkb3 : clusterCenter pts j < clusterCenter pts kb :=
          lt_of_le_of_ne hkb2 (hdist j kb (Ne.symm hkb))
        rw [ctb_mid _ j ⟨ka, hka, hka3⟩ ⟨kb, hkb, hkb3⟩]
        apply ctb_mid
        · exact ⟨τ ka, fun he => hka (hτ.1 he), by rw [hc2, hc2]; exact hka3⟩
        · exact ⟨τ kb, fun he => hkb (hτ.1 he), by rw [hc2, hc2]; exact hkb3⟩
  · intro j hmin
    exact ctb_min _ j hmin

/-- C7 witness: the invariance theorem at three one-word clusters at
x = 100, 300, 500, permuted and cyclically relabelled. -/
theorem C7_cluster_witness :
    clusterToBureau (clusterCenter pts2c) (wtau 0) =
      clusterToBureau (clusterCenter ptsc) 0 ∧
    clusterToBureau (clusterCenter ptsc) 0 = Bureau.transunion := by
  have hperm : pts2c.Perm (ptsc.map (fun q => (q.1, wtau q.2))) := by
    have hmap : ptsc.map (fun q => (q.1, wtau q.2)) =
        [((100 : ℚ), (1 : Fin 3))] ++ [((300 : ℚ), (2 : Fin 3)), ((500 : ℚ), (0 : Fin 3))] := rfl
    rw [hmap]
    have h2 : ([((300 : ℚ), (2 : Fin 3)), ((500 : ℚ), (0 : Fin 3))] ++
          [((100 : ℚ), (1 : Fin 3))]).Perm
        ([((100 : ℚ), (1 : Fin 3))] ++
          [((300 : ℚ), (2 : Fin 3)), ((500 : ℚ), (0 : Fin 3))]) :=
      List.perm_append_comm
    exact h2
  have e0 : clusterCenter ptsc 0 = 100 := by
    norm_num [clusterCenter, ptsc,
      show (decide ((0 : Fin 3) = 0)) = true from rfl,
      show (decide ((1 : Fin 3) = 0)) = false from rfl,
      show (decide ((2 : Fin 3) = 0)) = false from rfl]
  have e1 : clusterCenter ptsc 1 = 300 := by
    norm_num [clusterCenter, ptsc,
      show (decide ((0 : Fin 3) = 1)) = false from rfl,
      show (decide ((1 : Fin 3) = 1)) = true from rfl,
      show (decide ((2 : Fin 3) = 1)) = false from rfl]
  have e2 : clusterCenter ptsc 2 = 500 := by
    norm_num [clusterCenter, ptsc,
      show (decide ((0 : Fin 3) = 2)) = false from rfl,
      show (decide ((1 : Fin 3) = 2)) = false from rfl,
      show (decide ((2 : Fin 3) = 2)) = true from rfl]
  have hd01 : clusterCenter ptsc 0 ≠ clusterCenter ptsc 1 := by
    rw [e0, e1]; norm_num
  have hd02 : clusterCenter ptsc 0 ≠ clusterCenter ptsc 2 := by
    rw [e0, e2]; norm_num
  have hd12 : clusterCenter ptsc 1 ≠ clusterCenter ptsc 2 := by
    rw [e1, e2]; norm_num
  have hdist : ∀ j k : Fin 3, j ≠ k →
      clusterCenter ptsc j ≠ clusterCenter ptsc k := by
    intro j k hjk
    fin_cases j <;> fin_cases k <;>
      first
        | exact absurd rfl hjk
        | exact hd01
        | exact hd02
        | exact hd12
        | exact hd01.symm
        | exact hd02.symm
        | exact hd12.symm
  have h := C7_cluster_invariance ptsc pts2c wtau (by decide) hperm hdist
  refine ⟨h.1 0, h.2 0 ?_⟩
  intro k hk
  fin_cases k
  · exact absurd rfl hk
  · show clusterCenter ptsc 0 < clusterCenter ptsc 1
    rw [e0, e1]; norm_num
  · show clusterCenter ptsc 0 < clusterCenter ptsc 2
    rw [e0, e2]; norm_num
end CreditReport
